import Mathlib

/-!
Verification development for the bookmark-chat system.

The Go source is shallowly embedded: text is `List Char` (one entry per rune),
`float64` scores are rationals, SQL tables are lists of row structures, and each
store operation is a pure state transformer translated statement by statement
from the source.  Recursive routines carry an explicit `Nat` fuel so that every
definition is structurally recursive and evaluates inside the kernel; the fuel
is chosen at call sites to dominate the recursion depth of the source, and the
fuel-exhaustion branch of the splitter returns the character-window split, the
same fallback the source itself uses for its "should never reach here" branch.
-/

/-- Text as a list of runes, mirroring Go's `[]rune` view of a string. -/
abbrev Str := List Char

/-- Concatenation of a list of strings. -/
def joinL (xs : List Str) : Str := xs.foldr (· ++ ·) []

/-- Go `unicode.IsSpace` on the Latin-1 range: space, tab, newline, vertical
tab, form feed, carriage return, NEL and NBSP. -/
def isGoSpace (c : Char) : Bool :=
  c == ' ' || c == '\t' || c == '\n' || c == Char.ofNat 11 || c == Char.ofNat 12 ||
  c == Char.ofNat 13 || c == Char.ofNat 0x85 || c == Char.ofNat 0xA0

/-- Go `strings.TrimSpace`: drop leading and trailing whitespace. -/
def trimSpace (l : Str) : Str :=
  ((l.dropWhile isGoSpace).reverse.dropWhile isGoSpace).reverse

/-- `EmbeddingService.estimateTokenCount`: rune count divided by 4. -/
def estimateTokenCount (l : Str) : Nat := l.length / 4

/-- Whether `sep` is a prefix of `l` (Boolean, by character comparison). -/
def isPrefixL : Str → Str → Bool
  | [], _ => true
  | _ :: _, [] => false
  | a :: as, b :: bs => a == b && isPrefixL as bs

/-- First occurrence of `sep` in `l`: returns the text before the occurrence
and the text after it.  `none` when `sep` does not occur. -/
def findSplit (sep : Str) : Str → Option (Str × Str)
  | [] => if sep.isEmpty then some ([], []) else none
  | c :: cs =>
    if isPrefixL sep (c :: cs) then some ([], (c :: cs).drop sep.length)
    else
      match findSplit sep cs with
      | none => none
      | some (p, q) => some (c :: p, q)

/-- Go `strings.Contains text sep`. -/
def containsSub (l sep : Str) : Bool := (findSplit sep l).isSome

/-- Go `strings.Split` around every occurrence of `sep` (first-occurrence
recursion, with fuel bounding the number of pieces). -/
def splitOnAux (sep : Str) : Nat → Str → List Str
  | 0, l => [l]
  | fuel + 1, l =>
    match findSplit sep l with
    | none => [l]
    | some (pre, post) => pre :: splitOnAux sep fuel post

/-- Go `strings.Split text sep` (for non-empty `sep`). -/
def splitOnL (sep l : Str) : List Str := splitOnAux sep l.length l

/-- `sep`-intercalation, the inverse of splitting. -/
def joinSep (sep : Str) : List Str → Str
  | [] => []
  | [x] => x
  | x :: y :: xs => x ++ sep ++ joinSep sep (y :: xs)

/-- `EmbeddingService.splitByCharacterCount` inner loop: successive windows of
`w` runes, each trimmed.  Fuel bounds the number of windows; the fuel-exhaustion
branch keeps the remaining text as one trimmed window. -/
def chunksOfAux (w : Nat) : Nat → Str → List Str
  | _, [] => []
  | 0, l => [trimSpace l]
  | fuel + 1, c :: cs => trimSpace ((c :: cs).take w) :: chunksOfAux w fuel ((c :: cs).drop w)

/-- `EmbeddingService.splitByCharacterCount`: split into windows of
`maxTokens * 4` runes and trim each. -/
def splitByCharacterCount (maxTokens : Nat) (text : Str) : List Str :=
  chunksOfAux (maxTokens * 4) text.length text

/-- `EmbeddingService.mergeParts` loop: fold the split parts into chunks,
greedily merging up to the token budget, recursively re-splitting (via the
`recSplit` callback) a part that alone exceeds the budget while no chunk is
open.  `result` and `cur` are the accumulated chunk list and the open chunk. -/
def mergeGo (recSplit : Str → List Str) (sep : Str) (maxTokens : Nat) :
    List Str → List Str → Str → List Str
  | [], result, cur => if cur.isEmpty then result else result ++ [trimSpace cur]
  | p :: ps, result, cur =>
    let p' := trimSpace p
    if p'.isEmpty then mergeGo recSplit sep maxTokens ps result cur
    else
      let test := if cur.isEmpty then p' else cur ++ sep ++ p'
      if estimateTokenCount test ≤ maxTokens then mergeGo recSplit sep maxTokens ps result test
      else if cur.isEmpty then mergeGo recSplit sep maxTokens ps (result ++ recSplit p') []
      else mergeGo recSplit sep maxTokens ps (result ++ [trimSpace cur]) p'

/-- `EmbeddingService.mergeParts`. -/
def mergePartsF (recSplit : Str → List Str) (parts : List Str) (sep : Str)
    (maxTokens : Nat) : List Str :=
  mergeGo recSplit sep maxTokens parts [] []

/-- The separator scan of `EmbeddingService.recursiveSplit`: try each separator
in order; the empty separator and an exhausted list both fall back to the
character-window split. -/
def pickSeparator (text : Str) (maxTokens : Nat) (split : Str → Str → List Str) :
    List Str → List Str
  | [] => splitByCharacterCount maxTokens text
  | sep :: rest =>
    if sep.isEmpty then splitByCharacterCount maxTokens text
    else if containsSub text sep then split sep text
    else pickSeparator text maxTokens split rest

/-- `EmbeddingService.recursiveSplit`, with fuel bounding the recursion depth.
Fuel exhaustion returns the character-window split, the source's own fallback
for its unreachable branch. -/
def recursiveSplitF : Nat → Str → List Str → Nat → List Str
  | 0, text, _, maxTokens => splitByCharacterCount maxTokens text
  | fuel + 1, text, seps, maxTokens =>
    if estimateTokenCount text ≤ maxTokens then [trimSpace text]
    else
      pickSeparator text maxTokens
        (fun sep t => mergePartsF (fun p => recursiveSplitF fuel p seps maxTokens)
          (splitOnL sep t) sep maxTokens) seps

/-- The HTML-aware separator list of `EmbeddingService.ChunkText`, coarse to
fine. -/
def separators : List Str :=
  [['\n', '\n'], ['\n'], ['.', ' '], ['!', ' '], ['?', ' '], [';', ' '],
   [',', ' '], [' '], []]

/-- `EmbeddingService.ChunkText`: empty text yields no chunks, text within the
budget is one chunk, otherwise recursive splitting.  The fuel `text.length + 1`
dominates the source's recursion depth (every recursive call is on a strictly
shorter piece). -/
def ChunkText (text : Str) (maxTokens : Nat) : List Str :=
  if text.isEmpty then []
  else if estimateTokenCount text ≤ maxTokens then [text]
  else recursiveSplitF (text.length + 1) text separators maxTokens

/-- `EmbeddingService.GenerateEmbeddingWithChunking` invokes the chunker with
token budget 6000. -/
def generateEmbeddingChunks (text : Str) : List Str := ChunkText text 6000

/-- The punctuation characters occurring in the separator list. -/
def sepPunct (c : Char) : Bool :=
  c == '.' || c == '!' || c == '?' || c == ';' || c == ','

/-- Delete whitespace and separator punctuation; chunking preserves text up to
this erasure. -/
def eraseWsP (l : Str) : Str := l.filter (fun c => !(isGoSpace c || sepPunct c))

/-- Delete whitespace only; "modulo whitespace normalization" compares texts
after this erasure. -/
def eraseWs (l : Str) : Str := l.filter (fun c => !isGoSpace c)

theorem eraseWsP_append (a b : Str) : eraseWsP (a ++ b) = eraseWsP a ++ eraseWsP b :=
  List.filter_append ..

theorem eraseWsP_nil : eraseWsP [] = [] := rfl

theorem filter_dropWhile_of_imp {f p : Char → Bool} (h : ∀ c, p c = true → f c = false) :
    ∀ l : Str, List.filter f (l.dropWhile p) = List.filter f l := by
  intro l
  induction l with
  | nil => rfl
  | cons c cs ih =>
    by_cases hc : p c = true
    · simp [List.dropWhile, hc, List.filter, h c hc, ih]
    · simp [List.dropWhile, hc, List.filter]

theorem eraseWsP_trimSpace (l : Str) : eraseWsP (trimSpace l) = eraseWsP l := by
  have h : ∀ c, isGoSpace c = true → (!(isGoSpace c || sepPunct c)) = false := by
    intro c hc; simp [hc]
  unfold trimSpace eraseWsP
  rw [List.filter_reverse, filter_dropWhile_of_imp h, List.filter_reverse,
    List.reverse_reverse, filter_dropWhile_of_imp h]

theorem joinL_nil : joinL [] = [] := rfl

theorem joinL_cons (x : Str) (xs : List Str) : joinL (x :: xs) = x ++ joinL xs := rfl

theorem joinL_append (a b : List Str) : joinL (a ++ b) = joinL a ++ joinL b := by
  induction a with
  | nil => rfl
  | cons x xs ih => simp [joinL_cons, ih]

theorem isPrefixL_eq {sep : Str} : ∀ {l : Str}, isPrefixL sep l = true →
    l = sep ++ l.drop sep.length := by
  induction sep with
  | nil => intro l _; simp
  | cons a as ih =>
    intro l h
    cases l with
    | nil => simp [isPrefixL] at h
    | cons b bs =>
      simp only [isPrefixL, Bool.and_eq_true, beq_iff_eq] at h
      obtain ⟨rfl, h2⟩ := h
      simpa using ih h2

theorem findSplit_eq {sep : Str} : ∀ {l p q : Str},
    findSplit sep l = some (p, q) → l = p ++ sep ++ q := by
  intro l
  induction l with
  | nil =>
    intro p q h
    simp only [findSplit] at h
    by_cases hs : sep.isEmpty
    · rw [if_pos hs] at h
      cases h
      cases sep with
      | nil => rfl
      | cons c cs => simp [List.isEmpty] at hs
    · rw [if_neg hs] at h; cases h
  | cons c cs ih =>
    intro p q h
    simp only [findSplit] at h
    by_cases hp : isPrefixL sep (c :: cs) = true
    · rw [if_pos hp] at h
      cases h
      simpa using isPrefixL_eq hp
    · rw [if_neg hp] at h
      cases hfs : findSplit sep cs with
      | none => rw [hfs] at h; cases h
      | some pq =>
        obtain ⟨p', q'⟩ := pq
        rw [hfs] at h
        cases h
        have := ih hfs
        simp [this]

theorem splitOnAux_ne_nil (sep : Str) (fuel : Nat) (l : Str) :
    splitOnAux sep fuel l ≠ [] := by
  cases fuel with
  | zero => simp [splitOnAux]
  | succ n =>
    simp only [splitOnAux]
    cases findSplit sep l with
    | none => simp
    | some pq => simp

theorem joinSep_splitOnAux (sep : Str) : ∀ (fuel : Nat) (l : Str),
    joinSep sep (splitOnAux sep fuel l) = l := by
  intro fuel
  induction fuel with
  | zero => intro l; rfl
  | succ n ih =>
    intro l
    simp only [splitOnAux]
    cases hfs : findSplit sep l with
    | none => rfl
    | some pq =>
      obtain ⟨pre, post⟩ := pq
      have hl := findSplit_eq hfs
      show joinSep sep (pre :: splitOnAux sep n post) = l
      cases hz : splitOnAux sep n post with
      | nil => exact absurd hz (splitOnAux_ne_nil sep n post)
      | cons z zs =>
        have hj : joinSep sep (pre :: z :: zs) = pre ++ sep ++ joinSep sep (z :: zs) := rfl
        rw [hj, ← hz, ih post]
        exact hl.symm

theorem joinSep_splitOnL (sep l : Str) : joinSep sep (splitOnL sep l) = l :=
  joinSep_splitOnAux sep l.length l

/-- Erasing through `sep`-intercalation when the separator erases to nothing. -/
theorem eraseWsP_joinSep {sep : Str} (hsep : eraseWsP sep = []) :
    ∀ xs : List Str, eraseWsP (joinSep sep xs) = eraseWsP (joinL xs) := by
  intro xs
  induction xs with
  | nil => rfl
  | cons x ys ih =>
    cases ys with
    | nil => simp [joinSep, joinL_cons, joinL_nil]
    | cons y zs =>
      have : joinSep sep (x :: y :: zs) = x ++ sep ++ joinSep sep (y :: zs) := rfl
      rw [this, joinL_cons, eraseWsP_append, eraseWsP_append, eraseWsP_append, hsep, ih]
      simp

theorem eraseWsP_chunksOfAux (w : Nat) : ∀ (fuel : Nat) (l : Str),
    eraseWsP (joinL (chunksOfAux w fuel l)) = eraseWsP l := by
  intro fuel
  induction fuel with
  | zero =>
    intro l
    cases l with
    | nil => rfl
    | cons c cs => simp [chunksOfAux, joinL_cons, joinL_nil, eraseWsP_trimSpace]
  | succ n ih =>
    intro l
    cases l with
    | nil => rfl
    | cons c cs =>
      simp only [chunksOfAux, joinL_cons]
      rw [eraseWsP_append, eraseWsP_trimSpace, ih, ← eraseWsP_append,
        List.take_append_drop]

theorem eraseWsP_splitByCharacterCount (maxTokens : Nat) (text : Str) :
    eraseWsP (joinL (splitByCharacterCount maxTokens text)) = eraseWsP text :=
  eraseWsP_chunksOfAux _ _ _

theorem eraseWsP_mergeGo {recSplit : Str → List Str} {sep : Str} {maxTokens : Nat}
    (hrec : ∀ p, eraseWsP (joinL (recSplit p)) = eraseWsP p)
    (hsep : eraseWsP sep = []) :
    ∀ (ps result : List Str) (cur : Str),
      eraseWsP (joinL (mergeGo recSplit sep maxTokens ps result cur)) =
        eraseWsP (joinL result) ++ eraseWsP cur ++ eraseWsP (joinL ps) := by
  intro ps
  induction ps with
  | nil =>
    intro result cur
    by_cases hc : cur.isEmpty
    · have : cur = [] := by cases cur <;> simp_all [List.isEmpty]
      simp [mergeGo, hc, this, joinL_nil, eraseWsP_nil]
    · simp [mergeGo, hc, joinL_append, joinL_cons, joinL_nil, eraseWsP_append,
        eraseWsP_trimSpace, eraseWsP_nil]
  | cons p ps ih =>
    intro result cur
    simp only [mergeGo]
    have htrim : eraseWsP (trimSpace p) = eraseWsP p := eraseWsP_trimSpace p
    by_cases h1 : (trimSpace p).isEmpty
    · have hp : eraseWsP p = [] := by
        have : trimSpace p = [] := by
          cases htp : trimSpace p <;> simp_all [List.isEmpty]
        rw [← htrim, this]; rfl
      rw [if_pos h1, ih, joinL_cons, eraseWsP_append, hp]
      simp
    · rw [if_neg h1]
      by_cases h2 : estimateTokenCount
          (if cur.isEmpty then trimSpace p else cur ++ sep ++ trimSpace p) ≤ maxTokens
      · rw [if_pos h2, ih]
        by_cases hc : cur.isEmpty
        · have : cur = [] := by cases cur <;> simp_all [List.isEmpty]
          simp [hc, this, joinL_cons, eraseWsP_append, htrim, eraseWsP_nil]
        · simp [hc, joinL_cons, eraseWsP_append, htrim, hsep, eraseWsP_nil]
      · rw [if_neg h2]
        by_cases hc : cur.isEmpty
        · have hcur : cur = [] := by cases cur <;> simp_all [List.isEmpty]
          rw [if_pos hc, ih, joinL_append, eraseWsP_append, hrec, joinL_cons,
            eraseWsP_append, htrim, hcur]
          simp [eraseWsP_nil]
        · rw [if_neg hc, ih, joinL_append, joinL_cons, joinL_cons, joinL_nil,
            eraseWsP_append, eraseWsP_append, eraseWsP_append, eraseWsP_trimSpace,
            htrim]
          simp [eraseWsP_nil]


theorem eraseWsP_pickSeparator {text : Str} {maxTokens : Nat}
    {split : Str → Str → List Str} :
    ∀ {l : List Str},
      (∀ sep ∈ l, sep.isEmpty = false → containsSub text sep = true →
        eraseWsP (joinL (split sep text)) = eraseWsP text) →
      eraseWsP (joinL (pickSeparator text maxTokens split l)) = eraseWsP text := by
  intro l
  induction l with
  | nil => intro _; exact eraseWsP_splitByCharacterCount maxTokens text
  | cons sep rest ih =>
    intro h
    simp only [pickSeparator]
    by_cases hs : sep.isEmpty
    · rw [if_pos hs]; exact eraseWsP_splitByCharacterCount maxTokens text
    · rw [if_neg hs]
      by_cases hcon : containsSub text sep = true
      · rw [if_pos hcon]
        exact h sep (List.mem_cons_self ..) (by simp_all) hcon
      · rw [if_neg hcon]
        exact ih fun s hm => h s (List.mem_cons_of_mem _ hm)

theorem eraseWsP_recursiveSplitF {seps : List Str}
    (hseps : ∀ sep ∈ seps, eraseWsP sep = []) :
    ∀ (fuel : Nat) (text : Str) (maxTokens : Nat),
      eraseWsP (joinL (recursiveSplitF fuel text seps maxTokens)) = eraseWsP text := by
  intro fuel
  induction fuel with
  | zero => intro text maxTokens; exact eraseWsP_splitByCharacterCount maxTokens text
  | succ n ih =>
    intro text maxTokens
    simp only [recursiveSplitF]
    by_cases hfit : estimateTokenCount text ≤ maxTokens
    · rw [if_pos hfit]
      simp [joinL_cons, joinL_nil, eraseWsP_trimSpace]
    · rw [if_neg hfit]
      refine eraseWsP_pickSeparator ?_
      intro sep hmem _ _
      show eraseWsP (joinL (mergePartsF
        (fun p => recursiveSplitF n p seps maxTokens) (splitOnL sep text) sep maxTokens)) =
        eraseWsP text
      unfold mergePartsF
      rw [eraseWsP_mergeGo (fun p => ih p maxTokens) (hseps sep hmem)]
      rw [← eraseWsP_joinSep (hseps sep hmem) (splitOnL sep text), joinSep_splitOnL]
      simp [joinL_nil, eraseWsP_nil]

/-- Chunking preserves the text after erasing whitespace and separator
punctuation: the whole-text invariant behind reconstruction. -/
theorem eraseWsP_ChunkText (text : Str) (maxTokens : Nat) :
    eraseWsP (joinL (ChunkText text maxTokens)) = eraseWsP text := by
  unfold ChunkText
  by_cases he : text.isEmpty
  · have : text = [] := by cases text <;> simp_all [List.isEmpty]
    rw [if_pos he, this, joinL_nil]
  · rw [if_neg he]
    by_cases hfit : estimateTokenCount text ≤ maxTokens
    · rw [if_pos hfit]; simp [joinL_cons, joinL_nil]
    · rw [if_neg hfit]
      exact eraseWsP_recursiveSplitF (by decide) _ text maxTokens

/-- C6: the chunker can emit a chunk whose estimated token count exceeds the
budget.  On `"aa bbbbbbbbbb"` with budget 1 the word-level merge saves the open
chunk `"aa"` and adopts the oversized part `"bbbbbbbbbb"` as the next chunk
without re-splitting it, so the second chunk estimates to 2 tokens > 1.  The
same shape scales to the pipeline's budget 6000 with a long separator-free
word after a short one.  The claim that every chunk's estimate is at most the
budget matches the code's intent (the budget is a safety margin under the
provider's hard cap) but not its behaviour. -/
theorem C6_chunk_exceeds_budget :
    ChunkText "aa bbbbbbbbbb".toList 1 = ["aa".toList, "bbbbbbbbbb".toList] ∧
    estimateTokenCount "bbbbbbbbbb".toList = 2 ∧ ¬ (2 ≤ 1) ∧
    generateEmbeddingChunks "hello".toList = ChunkText "hello".toList 6000 := by
  refine ⟨by decide, by decide, by decide, rfl⟩

/-- C7 counterexample: a text split at a sentence boundary loses the period at
the chunk boundary, so the concatenation of the chunks differs from the source
by more than whitespace. -/
theorem C7_counterexample_period_lost :
    (ChunkText "aaaaaaaaaa. bbbbbbbbbb".toList 2).length = 2 ∧
    eraseWs (joinL (ChunkText "aaaaaaaaaa. bbbbbbbbbb".toList 2)) ≠
      eraseWs "aaaaaaaaaa. bbbbbbbbbb".toList := by
  constructor
  · decide
  · decide

/-- C7 (amended): concatenating the chunks in order reproduces the source text
modulo whitespace normalization and the separator punctuation characters
('.', '!', '?', ';', ','), which are dropped wherever a split separator lands
on a chunk boundary: erasing whitespace and those five characters from the
concatenation yields exactly the same erasure of the source, for every text
and budget. -/
theorem C7_chunk_reconstruction (text : Str) (maxTokens : Nat) :
    eraseWsP (joinL (ChunkText text maxTokens)) = eraseWsP text :=
  eraseWsP_ChunkText text maxTokens

/-! ## Hybrid search: scoring, normalization and fusion

`Storage.HybridSearch` combines the semantic candidate list (one row per
embedding chunk) and the keyword candidate list (rows from the two FTS
indexes) into one ranked list.  The two candidate lists are inputs of the
model; `float64` scores are rationals.  Go's map iteration order is
unspecified when the fused map is flattened; the model keeps insertion order,
one of the allowed orders, before the final sort. -/

/-- `storage.SearchResult` restricted to the fields the fusion path reads.
`hasContent` models a non-nil `Content` pointer whose `CleanText` is
`cleanText`. -/
structure SearchResult where
  bookmarkId : Str
  title : Str
  description : Str
  url : Str
  hasContent : Bool
  cleanText : Str
  score : ℚ
  searchType : Str
  snippet : Str
deriving DecidableEq

/-- Go `strings.ToLower` (ASCII range; the claims do not exercise non-ASCII
case folding). -/
def toLowerL (l : Str) : Str := l.map Char.toLower

/-- Accumulator loop of Go `strings.Fields`: split on whitespace runs,
producing no empty fields. -/
def fieldsAux : Str → Str → List Str
  | [], acc => if acc.isEmpty then [] else [acc.reverse]
  | c :: cs, acc =>
    if isGoSpace c then
      if acc.isEmpty then fieldsAux cs []
      else acc.reverse :: fieldsAux cs []
    else fieldsAux cs (c :: acc)

/-- Go `strings.Fields`. -/
def fieldsL (l : Str) : List Str := fieldsAux l []

/-- `Storage.applyExactMatchBoost`: first query word found as a substring of
the lowercased title boosts ×1.5, else of the description ×1.3, else of the
content text ×1.2; at most one boost. -/
def applyExactMatchBoost (queryText : Str) (r : SearchResult) : SearchResult :=
  if queryText.isEmpty then r
  else
    let queryWords := fieldsL (toLowerL queryText)
    if queryWords.any (fun w => containsSub (toLowerL r.title) w) then
      {r with score := r.score * (3 / 2)}
    else if !r.description.isEmpty &&
        queryWords.any (fun w => containsSub (toLowerL r.description) w) then
      {r with score := r.score * (13 / 10)}
    else if r.hasContent && !r.cleanText.isEmpty &&
        queryWords.any (fun w => containsSub (toLowerL r.cleanText) w) then
      {r with score := r.score * (6 / 5)}
    else r

/-- `Storage.applyFieldSpecificBoost`: whole query a substring of the title
×3.0 (URL boost skipped), else of the URL ×2.0, else a graduated boost from
the fraction of query words occurring verbatim among title words (≥50% ×2.0,
else ≥25% ×1.5). -/
def applyFieldSpecificBoost (queryText : Str) (r : SearchResult) : SearchResult :=
  if queryText.isEmpty then r
  else
    let queryLower := toLowerL queryText
    if containsSub (toLowerL r.title) queryLower then
      {r with score := r.score * 3}
    else if containsSub (toLowerL r.url) queryLower then
      {r with score := r.score * 2}
    else
      let queryWords := fieldsL queryLower
      let titleWords := fieldsL (toLowerL r.title)
      let titleMatches :=
        (queryWords.filter (fun qw => titleWords.any (fun tw => tw == qw))).length
      if titleMatches > 0 then
        let matchRatio : ℚ := (titleMatches : ℚ) / (queryWords.length : ℚ)
        if 1 / 2 ≤ matchRatio then {r with score := r.score * 2}
        else if 1 / 4 ≤ matchRatio then {r with score := r.score * (3 / 2)}
        else r
      else r

/-- The maximum-score scan of `Storage.normalizeBM25Scores`, starting from
0.0. -/
def maxScoreOf (results : List SearchResult) : ℚ :=
  results.foldl (fun m r => if r.score > m then r.score else m) 0

/-- `Storage.normalizeBM25Scores`: find the maximum score starting from 0;
when that maximum is positive, divide every score by it, otherwise leave the
list untouched. -/
def normalizeBM25Scores (results : List SearchResult) : List SearchResult :=
  if results.isEmpty then results
  else if maxScoreOf results ≤ 0 then results
  else results.map fun r => {r with score := r.score / maxScoreOf results}

/-- First entry of the fused result map with the given bookmark id. -/
def lookupById (m : List SearchResult) (id : Str) : Option SearchResult :=
  m.find? (fun r => r.bookmarkId == id)

/-- Replace the map entry carrying `r.bookmarkId` by `r`. -/
def replaceById (m : List SearchResult) (r : SearchResult) : List SearchResult :=
  m.map fun e => if e.bookmarkId == r.bookmarkId then r else e

/-- `resultMap[id] = result` on the insertion-ordered association list. -/
def insertOrReplace (m : List SearchResult) (r : SearchResult) : List SearchResult :=
  if (lookupById m r.bookmarkId).isSome then replaceById m r else m ++ [r]

/-- Weighting, tagging and boosting of one semantic candidate
(`HybridSearch`, semantic loop body after the 0.3 threshold). -/
def processSemantic (queryText : Str) (r : SearchResult) : SearchResult :=
  applyFieldSpecificBoost queryText (applyExactMatchBoost queryText
    {r with score := r.score * (2 / 5), searchType := "semantic".toList})

/-- Weighting and boosting of one keyword candidate (`HybridSearch`, keyword
loop body after the 0.15 threshold; the search type is assigned later). -/
def processKeyword (queryText : Str) (r : SearchResult) : SearchResult :=
  applyFieldSpecificBoost queryText (applyExactMatchBoost queryText
    {r with score := r.score * (3 / 5)})

/-- Merging a processed keyword candidate into an existing map entry: scores
sum, the type becomes "hybrid", a non-empty snippet overwrites. -/
def combineKeyword (e r' : SearchResult) : SearchResult :=
  {e with score := e.score + r'.score, searchType := "hybrid".toList,
          snippet := if r'.snippet.isEmpty then e.snippet else r'.snippet}

/-- Semantic loop of `Storage.HybridSearch`: drop candidates below 0.3,
weight, tag "semantic", boost, and write into the map. -/
def semanticPhase (queryText : Str) (semanticResults : List SearchResult) :
    List SearchResult :=
  semanticResults.foldl
    (fun m r => if r.score < 3 / 10 then m
      else insertOrReplace m (processSemantic queryText r)) []

/-- Keyword loop of `Storage.HybridSearch`: drop candidates below 0.15,
weight, boost, then merge into an existing entry (tag "hybrid") or append a
fresh "keyword" entry. -/
def keywordPhase (queryText : Str) (m : List SearchResult)
    (keywordResults : List SearchResult) : List SearchResult :=
  keywordResults.foldl
    (fun m r =>
      if r.score < 3 / 20 then m
      else
        let r' := processKeyword queryText r
        match lookupById m r'.bookmarkId with
        | some e => replaceById m (combineKeyword e r')
        | none => m ++ [{r' with searchType := "keyword".toList}])
    m

/-- Inner pass of the source's relevance sort: scan the tail, swapping the
running element whenever a strictly larger score appears; returns the maximum
and the displaced tail, exactly as the nested-loop swap sort leaves them. -/
def selPass : SearchResult → List SearchResult → SearchResult × List SearchResult
  | cur, [] => (cur, [])
  | cur, x :: xs =>
    if cur.score < x.score then
      ((selPass x xs).1, cur :: (selPass x xs).2)
    else
      ((selPass cur xs).1, x :: (selPass cur xs).2)

/-- The source's descending selection sort over relevance scores; the fuel is
the list length (`selPass` preserves length, so it is always sufficient). -/
def sortByScoreDesc : Nat → List SearchResult → List SearchResult
  | 0, l => l
  | _ + 1, [] => []
  | n + 1, x :: xs => (selPass x xs).1 :: sortByScoreDesc n (selPass x xs).2

/-- `Storage.HybridSearch` downstream of the two candidate queries: normalize
the keyword scores, run the two fusion loops, sort descending by score, keep
the top 20. -/
def HybridSearchRanking (queryText : Str)
    (semanticResults keywordResults : List SearchResult) : List SearchResult :=
  let fused := keywordPhase queryText (semanticPhase queryText semanticResults)
    (normalizeBM25Scores keywordResults)
  (sortByScoreDesc fused.length fused).take 20

theorem applyExactMatchBoost_bookmarkId (q : Str) (r : SearchResult) :
    (applyExactMatchBoost q r).bookmarkId = r.bookmarkId := by
  unfold applyExactMatchBoost
  split
  · rfl
  · dsimp only
    repeat' split
    all_goals rfl

theorem applyFieldSpecificBoost_bookmarkId (q : Str) (r : SearchResult) :
    (applyFieldSpecificBoost q r).bookmarkId = r.bookmarkId := by
  unfold applyFieldSpecificBoost
  split
  · rfl
  · dsimp only
    repeat' split
    all_goals rfl

theorem processSemantic_bookmarkId (q : Str) (r : SearchResult) :
    (processSemantic q r).bookmarkId = r.bookmarkId := by
  unfold processSemantic
  rw [applyFieldSpecificBoost_bookmarkId, applyExactMatchBoost_bookmarkId]

theorem processKeyword_bookmarkId (q : Str) (r : SearchResult) :
    (processKeyword q r).bookmarkId = r.bookmarkId := by
  unfold processKeyword
  rw [applyFieldSpecificBoost_bookmarkId, applyExactMatchBoost_bookmarkId]

theorem lookupById_nil (id : Str) : lookupById [] id = none := rfl

theorem lookupById_append (m₁ m₂ : List SearchResult) (id : Str) :
    lookupById (m₁ ++ m₂) id =
      match lookupById m₁ id with
      | some e => some e
      | none => lookupById m₂ id := by
  induction m₁ with
  | nil => rfl
  | cons x xs ih =>
    by_cases hx : (x.bookmarkId == id) = true
    · simp [lookupById, List.find?, hx]
    · simp only [lookupById, List.cons_append, List.find?, hx] at *
      exact ih

theorem lookupById_replace_ne (m : List SearchResult) (x : SearchResult) (id : Str)
    (h : x.bookmarkId ≠ id) :
    lookupById (replaceById m x) id = lookupById m id := by
  induction m with
  | nil => rfl
  | cons e es ih =>
    by_cases he : (e.bookmarkId == x.bookmarkId) = true
    · have he' : e.bookmarkId = x.bookmarkId := by simpa using he
      have hne : (e.bookmarkId == id) = false := by
        simp [he']; exact h
      have hxe : (x.bookmarkId == id) = false := by simp [h]
      simp [replaceById, lookupById, List.find?, he, hne, hxe] at *
      exact ih
    · have : (if (e.bookmarkId == x.bookmarkId) = true then x else e) = e := by simp [he]
      simp only [replaceById, List.map, this, lookupById, List.find?] at *
      cases hei : (e.bookmarkId == id) <;> simp [hei] at *
      exact ih

theorem lookupById_replace_eq (m : List SearchResult) (x : SearchResult)
    (h : (lookupById m x.bookmarkId).isSome) :
    lookupById (replaceById m x) x.bookmarkId = some x := by
  induction m with
  | nil => simp [lookupById, List.find?] at h
  | cons e es ih =>
    by_cases he : (e.bookmarkId == x.bookmarkId) = true
    · simp [replaceById, lookupById, List.find?, he]
    · have h1 : lookupById (e :: es) x.bookmarkId = lookupById es x.bookmarkId := by
        simp [lookupById, List.find?, he]
      rw [h1] at h
      have h2 : replaceById (e :: es) x = e :: replaceById es x := by
        simp only [replaceById, List.map]
        rw [if_neg he]
      have h3 : lookupById (e :: replaceById es x) x.bookmarkId
          = lookupById (replaceById es x) x.bookmarkId := by
        simp [lookupById, List.find?, he]
      rw [h2, h3]
      exact ih h

theorem selPass_length (cur : SearchResult) (xs : List SearchResult) :
    ((selPass cur xs).2).length = xs.length := by
  induction xs generalizing cur with
  | nil => rfl
  | cons x xs ih =>
    by_cases h : cur.score < x.score
    · simp [selPass, h, ih]
    · simp [selPass, h, ih]

theorem selPass_perm (cur : SearchResult) (xs : List SearchResult) :
    List.Perm (cur :: xs) ((selPass cur xs).1 :: (selPass cur xs).2) := by
  induction xs generalizing cur with
  | nil => rfl
  | cons x xs ih =>
    by_cases h : cur.score < x.score
    · simp only [selPass, if_pos h]
      exact (List.Perm.cons cur (ih x)).trans (List.Perm.swap _ _ _)
    · simp only [selPass, if_neg h]
      have h1 : List.Perm (cur :: x :: xs) (x :: cur :: xs) := List.Perm.swap _ _ _
      have h2 : List.Perm (x :: cur :: xs)
          (x :: (selPass cur xs).1 :: (selPass cur xs).2) := List.Perm.cons x (ih cur)
      exact (h1.trans h2).trans (List.Perm.swap _ _ _)

theorem selPass_max (cur : SearchResult) (xs : List SearchResult) :
    ∀ y ∈ cur :: xs, y.score ≤ (selPass cur xs).1.score := by
  induction xs generalizing cur with
  | nil =>
    intro y hy
    simp [selPass]
    rcases List.mem_singleton.mp hy with rfl
    exact le_refl _
  | cons x xs ih =>
    intro y hy
    rcases List.mem_cons.mp hy with rfl | hy'
    · by_cases h : y.score < x.score
      · simp only [selPass, if_pos h]
        exact le_of_lt (lt_of_lt_of_le h (ih x x (List.mem_cons_self ..)))
      · simp only [selPass, if_neg h]
        exact ih y y (List.mem_cons_self ..)
    · rcases List.mem_cons.mp hy' with rfl | hy''
      · by_cases h : cur.score < y.score
        · simp only [selPass, if_pos h]
          exact ih y y (List.mem_cons_self ..)
        · simp only [selPass, if_neg h]
          exact le_trans (le_of_not_lt h) (ih cur cur (List.mem_cons_self ..))
      · by_cases h : cur.score < x.score
        · simp only [selPass, if_pos h]
          exact ih x y (List.mem_cons_of_mem _ hy'')
        · simp only [selPass, if_neg h]
          exact ih cur y (List.mem_cons_of_mem _ hy'')

theorem sortByScoreDesc_perm :
    ∀ (n : Nat) (l : List SearchResult), l.length ≤ n →
      List.Perm l (sortByScoreDesc n l) := by
  intro n
  induction n with
  | zero =>
    intro l hl
    have : l = [] := List.length_eq_zero.mp (Nat.le_zero.mp hl)
    simp [this, sortByScoreDesc]
  | succ n ih =>
    intro l hl
    cases l with
    | nil => simp [sortByScoreDesc]
    | cons x xs =>
      simp only [sortByScoreDesc]
      have hlen : ((selPass x xs).2).length ≤ n := by
        rw [selPass_length]
        exact Nat.succ_le_succ_iff.mp (by simpa using hl)
      exact (selPass_perm x xs).trans (List.Perm.cons _ (ih _ hlen))

theorem sortByScoreDesc_sorted :
    ∀ (n : Nat) (l : List SearchResult), l.length ≤ n →
      List.Pairwise (fun a b => b.score ≤ a.score) (sortByScoreDesc n l) := by
  intro n
  induction n with
  | zero =>
    intro l hl
    have : l = [] := List.length_eq_zero.mp (Nat.le_zero.mp hl)
    simp [this, sortByScoreDesc]
  | succ n ih =>
    intro l hl
    cases l with
    | nil => simp [sortByScoreDesc]
    | cons x xs =>
      simp only [sortByScoreDesc]
      have hlen : ((selPass x xs).2).length ≤ n := by
        rw [selPass_length]
        exact Nat.succ_le_succ_iff.mp (by simpa using hl)
      refine List.pairwise_cons.mpr ⟨?_, ih _ hlen⟩
      intro y hy
      have hy' : y ∈ (selPass x xs).2 :=
        ((sortByScoreDesc_perm n _ hlen).mem_iff).mpr hy
      have : y ∈ x :: xs := (selPass_perm x xs).mem_iff.mpr (List.mem_cons_of_mem _ hy')
      exact selPass_max x xs y this

/-- Bookmark ids of a candidate list, in order. -/
def idsOf (l : List SearchResult) : List Str := l.map fun r => r.bookmarkId

theorem lookupById_eq_some_id {m : List SearchResult} {id : Str} {e : SearchResult}
    (h : lookupById m id = some e) : e.bookmarkId = id := by
  have := List.find?_some h
  simpa using this

theorem lookupById_singleton_ne (x : SearchResult) (id : Str) (h : x.bookmarkId ≠ id) :
    lookupById [x] id = none := by
  have hb : (x.bookmarkId == id) = false := by simpa using h
  simp [lookupById, List.find?, hb]

theorem lookupById_map_of_preserves (f : SearchResult → SearchResult)
    (hf : ∀ r, (f r).bookmarkId = r.bookmarkId) (l : List SearchResult) (id : Str) :
    lookupById (l.map f) id = (lookupById l id).map f := by
  induction l with
  | nil => rfl
  | cons x xs ih =>
    by_cases hx : (x.bookmarkId == id) = true
    · have : ((f x).bookmarkId == id) = true := by rw [hf]; exact hx
      simp [lookupById, List.find?, hx, this]
    · have : ((f x).bookmarkId == id) = false := by
        rw [hf]; simpa using hx
      simp only [List.map, lookupById, List.find?, this,
        Bool.false_eq_true, if_neg hx] at *
      cases hx2 : (x.bookmarkId == id) <;> simp [hx2] at *
      exact ih

theorem semanticFold_eq (q : Str) :
    ∀ (sem : List SearchResult) (m : List SearchResult),
      (∀ r ∈ sem, lookupById m r.bookmarkId = none) →
      (idsOf sem).Nodup →
      sem.foldl (fun m r => if r.score < 3 / 10 then m
        else insertOrReplace m (processSemantic q r)) m =
      m ++ (sem.filter fun r => !decide (r.score < 3 / 10)).map (processSemantic q) := by
  intro sem
  induction sem with
  | nil => intro m _ _; simp
  | cons r rest ih =>
    intro m hm hnd
    have hnd2 : (r.bookmarkId :: rest.map fun x => x.bookmarkId).Nodup := by
      simpa only [idsOf, List.map] using hnd
    have hnd' : (idsOf rest).Nodup := (List.nodup_cons.mp hnd2).2
    have hhead : r.bookmarkId ∉ idsOf rest := (List.nodup_cons.mp hnd2).1
    by_cases hr : r.score < 3 / 10
    · have hfold : (r :: rest).foldl (fun m r => if r.score < 3 / 10 then m
          else insertOrReplace m (processSemantic q r)) m
          = rest.foldl (fun m r => if r.score < 3 / 10 then m
            else insertOrReplace m (processSemantic q r)) m := by
        simp [List.foldl, hr]
      rw [hfold, ih m (fun r' h' => hm r' (List.mem_cons_of_mem _ h')) hnd']
      simp [List.filter, hr]
    · have hlk : lookupById m (processSemantic q r).bookmarkId = none := by
        rw [processSemantic_bookmarkId]
        exact hm r (List.mem_cons_self ..)
      have hstep : insertOrReplace m (processSemantic q r) = m ++ [processSemantic q r] := by
        simp [insertOrReplace, hlk]
      have hfold : (r :: rest).foldl (fun m r => if r.score < 3 / 10 then m
          else insertOrReplace m (processSemantic q r)) m
          = rest.foldl (fun m r => if r.score < 3 / 10 then m
            else insertOrReplace m (processSemantic q r)) (m ++ [processSemantic q r]) := by
        simp [List.foldl, hr, hstep]
      rw [hfold, ih (m ++ [processSemantic q r]) ?_ hnd']
      · simp [List.filter, hr]
      · intro r' h'
        rw [lookupById_append]
        have h1 : lookupById m r'.bookmarkId = none := hm r' (List.mem_cons_of_mem _ h')
        have h2 : lookupById [processSemantic q r] r'.bookmarkId = none := by
          refine lookupById_singleton_ne _ _ ?_
          rw [processSemantic_bookmarkId]
          intro hcontra
          exact hhead (by simpa [idsOf, hcontra] using List.mem_map_of_mem (fun x => x.bookmarkId) h')
        rw [h1, h2]

/-- Under distinct semantic bookmark ids, the semantic loop produces exactly
the boosted survivors of the 0.3 threshold, in order. -/
theorem semanticPhase_eq (q : Str) (sem : List SearchResult)
    (h : (idsOf sem).Nodup) :
    semanticPhase q sem =
      (sem.filter fun r => !decide (r.score < 3 / 10)).map (processSemantic q) := by
  unfold semanticPhase
  rw [semanticFold_eq q sem [] (fun r _ => rfl) h]
  simp

theorem combineKeyword_bookmarkId (e r' : SearchResult) :
    (combineKeyword e r').bookmarkId = e.bookmarkId := rfl

theorem keywordPhase_cons (q : Str) (m : List SearchResult) (r : SearchResult)
    (rest : List SearchResult) :
    keywordPhase q m (r :: rest) = keywordPhase q
      (if r.score < 3 / 20 then m
       else
        match lookupById m (processKeyword q r).bookmarkId with
        | some e => replaceById m (combineKeyword e (processKeyword q r))
        | none => m ++ [{processKeyword q r with searchType := "keyword".toList}]) rest := by
  by_cases hb : r.score < 3 / 20
  · simp [keywordPhase, List.foldl, hb]
  · simp only [keywordPhase, List.foldl, if_neg hb]

theorem keywordPhase_lookup_not_mem (q : Str) :
    ∀ (kw m : List SearchResult) (id : Str),
      (∀ r ∈ kw, r.bookmarkId ≠ id) →
      lookupById (keywordPhase q m kw) id = lookupById m id := by
  intro kw
  induction kw with
  | nil => intro m id _; rfl
  | cons r rest ih =>
    intro m id h
    have hr : r.bookmarkId ≠ id := h r (List.mem_cons_self ..)
    rw [keywordPhase_cons]
    by_cases hb : r.score < 3 / 20
    · rw [if_pos hb]
      exact ih m id fun r2 h2 => h r2 (List.mem_cons_of_mem _ h2)
    · rw [if_neg hb]
      have hid' : (processKeyword q r).bookmarkId = r.bookmarkId :=
        processKeyword_bookmarkId q r
      cases hm : lookupById m (processKeyword q r).bookmarkId with
      | some e =>
        have he : e.bookmarkId = r.bookmarkId := by
          have := lookupById_eq_some_id hm
          rw [hid'] at this
          exact this
        rw [ih _ id (fun r2 h2 => h r2 (List.mem_cons_of_mem _ h2))]
        exact lookupById_replace_ne m _ id (by rw [combineKeyword_bookmarkId, he]; exact hr)
      | none =>
        rw [ih _ id (fun r2 h2 => h r2 (List.mem_cons_of_mem _ h2)), lookupById_append]
        have : lookupById [{processKeyword q r with searchType := "keyword".toList}] id
            = none := by
          refine lookupById_singleton_ne _ _ ?_
          show (processKeyword q r).bookmarkId ≠ id
          rw [hid']; exact hr
        rw [this]
        cases lookupById m id <;> rfl

theorem keywordPhase_lookup (q : Str) :
    ∀ (kw m : List SearchResult) (id : Str),
      (idsOf kw).Nodup →
      lookupById (keywordPhase q m kw) id =
        match lookupById (kw.filter fun r => !decide (r.score < 3 / 20)) id with
        | none => lookupById m id
        | some k =>
          match lookupById m id with
          | some e => some (combineKeyword e (processKeyword q k))
          | none => some {processKeyword q k with searchType := "keyword".toList} := by
  intro kw
  induction kw with
  | nil =>
    intro m id _
    simp [keywordPhase, lookupById, List.find?, List.filter]
  | cons r rest ih =>
    intro m id hnd
    have hnd2 : (r.bookmarkId :: rest.map fun x => x.bookmarkId).Nodup := by
      simpa only [idsOf, List.map] using hnd
    have hnd' : (idsOf rest).Nodup := (List.nodup_cons.mp hnd2).2
    have hhead : r.bookmarkId ∉ idsOf rest := (List.nodup_cons.mp hnd2).1
    rw [keywordPhase_cons]
    by_cases hb : r.score < 3 / 20
    · rw [if_pos hb]
      have hfilter : (r :: rest).filter (fun r => !decide (r.score < 3 / 20))
          = rest.filter fun r => !decide (r.score < 3 / 20) := by
        simp [List.filter, hb]
      rw [hfilter]
      exact ih m id hnd'
    · rw [if_neg hb]
      have hfilter : (r :: rest).filter (fun r => !decide (r.score < 3 / 20))
          = r :: rest.filter fun r => !decide (r.score < 3 / 20) := by
        simp [List.filter, hb]
      rw [hfilter]
      have hid' : (processKeyword q r).bookmarkId = r.bookmarkId :=
        processKeyword_bookmarkId q r
      by_cases hid : r.bookmarkId = id
      · have hrest : ∀ r2 ∈ rest, r2.bookmarkId ≠ id := by
          intro r2 h2 hcontra
          exact hhead (by
            rw [hid, ← hcontra] at *
            exact List.mem_map_of_mem (fun x => x.bookmarkId) h2)
        have hlk : lookupById (r :: rest.filter fun r => !decide (r.score < 3 / 20)) id
            = some r := by
          have : (r.bookmarkId == id) = true := by simpa using hid
          simp [lookupById, List.find?, this]
        rw [hlk]
        cases hm : lookupById m (processKeyword q r).bookmarkId with
        | some e =>
          have he : e.bookmarkId = id := by
            have := lookupById_eq_some_id hm
            rw [hid'] at this; rw [this]; exact hid
          rw [keywordPhase_lookup_not_mem q rest _ id hrest]
          have hx : (combineKeyword e (processKeyword q r)).bookmarkId = id := by
            rw [combineKeyword_bookmarkId]; exact he
          have hsome : (lookupById m
              (combineKeyword e (processKeyword q r)).bookmarkId).isSome := by
            rw [hx, ← hid, ← hid']
            rw [hm]; rfl
          have := lookupById_replace_eq m (combineKeyword e (processKeyword q r)) hsome
          rw [hx] at this
          rw [this]
          have hmid : lookupById m id = some e := by
            rw [← hid, ← hid']; exact hm
          rw [hmid]
        | none =>
          rw [keywordPhase_lookup_not_mem q rest _ id hrest, lookupById_append]
          have hmid : lookupById m id = none := by
            rw [← hid, ← hid']; exact hm
          rw [hmid]
          have hx : ({processKeyword q r with
              searchType := "keyword".toList} : SearchResult).bookmarkId = id := by
            show (processKeyword q r).bookmarkId = id
            rw [hid']; exact hid
          have : (({processKeyword q r with
              searchType := "keyword".toList} : SearchResult).bookmarkId == id) = true := by
            simpa using hx
          simp [lookupById, List.find?, this]
      · have hlk : lookupById (r :: rest.filter fun r => !decide (r.score < 3 / 20)) id
            = lookupById (rest.filter fun r => !decide (r.score < 3 / 20)) id := by
          have : (r.bookmarkId == id) = false := by simpa using hid
          simp [lookupById, List.find?, this]
        rw [hlk]
        cases hm : lookupById m (processKeyword q r).bookmarkId with
        | some e =>
          have he : e.bookmarkId = r.bookmarkId := by
            have := lookupById_eq_some_id hm
            rw [hid'] at this; exact this
          rw [ih _ id hnd']
          have hrepl : lookupById (replaceById m (combineKeyword e (processKeyword q r))) id
              = lookupById m id :=
            lookupById_replace_ne m _ id (by rw [combineKeyword_bookmarkId, he]; exact hid)
          rw [hrepl]
        | none =>
          rw [ih _ id hnd']
          have happ : lookupById (m ++ [{processKeyword q r with
              searchType := "keyword".toList}]) id = lookupById m id := by
            rw [lookupById_append]
            have : lookupById [{processKeyword q r with
                searchType := "keyword".toList}] id = none := by
              refine lookupById_singleton_ne _ _ ?_
              show (processKeyword q r).bookmarkId ≠ id
              rw [hid']; exact hid
            rw [this]
            cases lookupById m id <;> rfl
          rw [happ]

theorem keywordPhase_filter_below (q : Str) :
    ∀ (kw m : List SearchResult),
      keywordPhase q m kw =
        keywordPhase q m (kw.filter fun r => !decide (r.score < 3 / 20)) := by
  intro kw
  induction kw with
  | nil => intro m; rfl
  | cons r rest ih =>
    intro m
    by_cases hb : r.score < 3 / 20
    · have h1 : (r :: rest).filter (fun r => !decide (r.score < 3 / 20))
          = rest.filter fun r => !decide (r.score < 3 / 20) := by simp [List.filter, hb]
      rw [keywordPhase_cons, if_pos hb, h1]
      exact ih m
    · have h1 : (r :: rest).filter (fun r => !decide (r.score < 3 / 20))
          = r :: rest.filter fun r => !decide (r.score < 3 / 20) := by simp [List.filter, hb]
      rw [keywordPhase_cons, if_neg hb, h1, keywordPhase_cons, if_neg hb]
      exact ih _

theorem le_foldl_maxScore :
    ∀ (l : List SearchResult) (a : ℚ),
      a ≤ l.foldl (fun m r => if r.score > m then r.score else m) a := by
  intro l
  induction l with
  | nil => intro a; exact le_refl a
  | cons r rest ih =>
    intro a
    refine le_trans ?_ (ih (if r.score > a then r.score else a))
    by_cases h : r.score > a
    · rw [if_pos h]; exact le_of_lt h
    · rw [if_neg h]

theorem score_le_foldl_maxScore :
    ∀ (l : List SearchResult) (a : ℚ) (r : SearchResult), r ∈ l →
      r.score ≤ l.foldl (fun m r => if r.score > m then r.score else m) a := by
  intro l
  induction l with
  | nil => intro a r h; cases h
  | cons x rest ih =>
    intro a r h
    rcases List.mem_cons.mp h with rfl | h2
    · refine le_trans ?_ (le_foldl_maxScore rest (if r.score > a then r.score else a))
      by_cases hx : r.score > a
      · rw [if_pos hx]
      · rw [if_neg hx]; exact le_of_not_lt hx
    · exact ih _ r h2

theorem score_le_maxScoreOf {results : List SearchResult} {r : SearchResult}
    (h : r ∈ results) : r.score ≤ maxScoreOf results :=
  score_le_foldl_maxScore results 0 r h

theorem maxScoreOf_pos {results : List SearchResult}
    (hpos : ∃ r ∈ results, 0 < r.score) : 0 < maxScoreOf results := by
  obtain ⟨r, hmem, hr⟩ := hpos
  exact lt_of_lt_of_le hr (score_le_maxScoreOf hmem)

theorem idsOf_normalize (kw : List SearchResult) :
    idsOf (normalizeBM25Scores kw) = idsOf kw := by
  unfold normalizeBM25Scores
  split
  · rfl
  · split
    · rfl
    · simp [idsOf, List.map_map]

/-- C3 (amended): when the keyword candidate set has a positive maximum raw
score, every score is divided by that maximum, and — provided all raw scores
are nonnegative, as the claim's "into [0,1]" presupposes — the results lie in
[0,1]; candidates whose resulting score is below 0.15 are skipped by the
fusion loop, so fusing the normalized list equals fusing it with those
candidates removed.  (When the maximum raw score is not positive, as with
FTS5's negative BM25 convention, `normalizeBM25Scores` leaves every score
unchanged; see the counterexample.) -/
theorem C3_bm25_normalization (results : List SearchResult)
    (hne : results ≠ [])
    (hnn : ∀ r ∈ results, 0 ≤ r.score)
    (hpos : ∃ r ∈ results, 0 < r.score) :
    normalizeBM25Scores results
      = results.map (fun r => {r with score := r.score / maxScoreOf results}) ∧
    (∀ r' ∈ normalizeBM25Scores results, 0 ≤ r'.score ∧ r'.score ≤ 1) ∧
    (∀ (q : Str) (m : List SearchResult),
      keywordPhase q m (normalizeBM25Scores results) =
        keywordPhase q m ((normalizeBM25Scores results).filter
          fun r => !decide (r.score < 3 / 20))) := by
  have hM : 0 < maxScoreOf results := maxScoreOf_pos hpos
  have hEmpty : results.isEmpty = false := by
    cases results with
    | nil => exact absurd rfl hne
    | cons x xs => rfl
  have hnorm : normalizeBM25Scores results
      = results.map fun r => {r with score := r.score / maxScoreOf results} := by
    unfold normalizeBM25Scores
    rw [hEmpty]
    simp only [Bool.false_eq_true, if_false]
    rw [if_neg (not_le.mpr hM)]
  refine ⟨hnorm, ?_, fun q m => keywordPhase_filter_below q _ m⟩
  intro r' hr'
  rw [hnorm] at hr'
  obtain ⟨r, hmem, rfl⟩ := List.mem_map.mp hr'
  constructor
  · exact div_nonneg (hnn r hmem) (le_of_lt hM)
  · exact (div_le_one hM).mpr (score_le_maxScoreOf hmem)

/-- A keyword-search row carrying a raw BM25 score of -1, the orientation FTS5
actually reports (more negative = better match). -/
def negKeywordRow : SearchResult :=
  ⟨"b".toList, [], [], [], false, [], -1, "keyword".toList, []⟩

/-- C3 counterexample: on the singleton candidate set whose raw score is -1,
the claim prescribes dividing by the set's maximum raw score (-1), giving a
normalized score of 1 inside [0,1]; the code's max-scan starts at 0, finds no
positive maximum, and leaves the score at -1, outside [0,1] (and the candidate
is then discarded by the 0.15 threshold rather than kept). -/
theorem C3_counterexample_negative_scores :
    (normalizeBM25Scores [negKeywordRow]).map (fun r => r.score) = [-1] ∧
    negKeywordRow.score / negKeywordRow.score = 1 ∧
    ¬ ((0 : ℚ) ≤ -1) :=
  of_decide_eq_true (by with_unfolding_all rfl)

/-- Rows for the C3 witness: raw scores 2 and 1. -/
def posKeywordRowA : SearchResult :=
  ⟨"a".toList, [], [], [], false, [], 2, "keyword".toList, []⟩

def posKeywordRowB : SearchResult :=
  ⟨"bb".toList, [], [], [], false, [], 1, "keyword".toList, []⟩

theorem C3_bm25_normalization_witness :
    normalizeBM25Scores [posKeywordRowA, posKeywordRowB]
      = [posKeywordRowA, posKeywordRowB].map
          (fun r => {r with score := r.score / maxScoreOf [posKeywordRowA, posKeywordRowB]}) :=
  (C3_bm25_normalization [posKeywordRowA, posKeywordRowB]
    (by simp)
    (by intro r hr
        rcases List.mem_cons.mp hr with rfl | hr2
        · exact of_decide_eq_true (by with_unfolding_all rfl)
        · rcases List.mem_singleton.mp hr2 with rfl
          exact of_decide_eq_true (by with_unfolding_all rfl))
    ⟨posKeywordRowA, List.mem_cons_self .., of_decide_eq_true (by with_unfolding_all rfl)⟩).1

/-- Spec-side definition, following the claim's fusion description for one
bookmark id: a bookmark among both the surviving semantic candidates
(similarity ≥ 0.3) and the surviving lexical candidates (normalized score
≥ 0.15) gets its two weighted, boosted scores summed and search type
"hybrid"; one present only among the semantic survivors keeps its weighted,
boosted semantic score and type "semantic"; only among the keyword survivors,
its weighted, boosted keyword score and type "keyword". -/
def claimFusedEntry (q : Str) (sem nkw : List SearchResult) (id : Str) :
    Option SearchResult :=
  match lookupById (sem.filter fun r => !decide (r.score < 3 / 10)) id,
        lookupById (nkw.filter fun r => !decide (r.score < 3 / 20)) id with
  | some s, some k => some (combineKeyword (processSemantic q s) (processKeyword q k))
  | some s, none => some (processSemantic q s)
  | none, some k => some {processKeyword q k with searchType := "keyword".toList}
  | none, none => none

/-- C5 (amended): provided each candidate list names every bookmark at most
once, the fused map matches the claim's description entry by entry (semantic
candidates below 0.3 discarded, weights 0.4/0.6, sum and "hybrid" exactly for
bookmarks surviving in both lists, else "semantic"/"keyword"), and the output
is that map sorted by final score descending and truncated to at most 20
entries.  (Without the at-most-once proviso the claim fails: a bookmark with
two surviving lexical candidates — one per FTS index — is summed and tagged
"hybrid" with no semantic match, and of several surviving semantic candidates
— one per chunk — only the last written survives.) -/
theorem C5_hybrid_fusion (q : Str) (sem kw : List SearchResult)
    (hs : (idsOf sem).Nodup) (hk : (idsOf kw).Nodup) :
    (HybridSearchRanking q sem kw).length ≤ 20 ∧
    List.Pairwise (fun a b => b.score ≤ a.score) (HybridSearchRanking q sem kw) ∧
    (∀ r ∈ HybridSearchRanking q sem kw,
      r ∈ keywordPhase q (semanticPhase q sem) (normalizeBM25Scores kw)) ∧
    (∀ id : Str,
      lookupById (keywordPhase q (semanticPhase q sem) (normalizeBM25Scores kw)) id =
        claimFusedEntry q sem (normalizeBM25Scores kw) id) := by
  have hout : HybridSearchRanking q sem kw =
      (sortByScoreDesc
        (keywordPhase q (semanticPhase q sem) (normalizeBM25Scores kw)).length
        (keywordPhase q (semanticPhase q sem) (normalizeBM25Scores kw))).take 20 := rfl
  refine ⟨?_, ?_, ?_, ?_⟩
  · rw [hout]; exact List.length_take_le ..
  · rw [hout]
    exact List.Pairwise.sublist (List.take_sublist ..)
      (sortByScoreDesc_sorted _ _ (le_refl _))
  · intro r hr
    rw [hout] at hr
    have h1 : r ∈ sortByScoreDesc
        (keywordPhase q (semanticPhase q sem) (normalizeBM25Scores kw)).length
        (keywordPhase q (semanticPhase q sem) (normalizeBM25Scores kw)) :=
      List.mem_of_mem_take hr
    exact (sortByScoreDesc_perm _ _ (le_refl _)).mem_iff.mpr h1
  · intro id
    have hnkw : (idsOf (normalizeBM25Scores kw)).Nodup := by
      rw [idsOf_normalize]; exact hk
    rw [keywordPhase_lookup q _ _ id hnkw, semanticPhase_eq q sem hs,
      lookupById_map_of_preserves _ (processSemantic_bookmarkId q) _ id]
    unfold claimFusedEntry
    cases lookupById (sem.filter fun r => !decide (r.score < 3 / 10)) id <;>
      cases lookupById ((normalizeBM25Scores kw).filter
        fun r => !decide (r.score < 3 / 20)) id <;> rfl

/-- Two rows of one keyword search for the same bookmark: a title/description
FTS match (no snippet) and a content FTS match (with snippet), as
`keywordSearch`'s UNION query produces them. -/
def dupKeywordRowTitle : SearchResult :=
  ⟨"b1".toList, [], [], [], false, [], 1, "keyword".toList, []⟩

def dupKeywordRowContent : SearchResult :=
  ⟨"b1".toList, [], [], [], false, [], 1 / 2, "keyword".toList, "x".toList⟩

/-- C5 counterexample: with no semantic candidates at all and two surviving
lexical candidates for the same bookmark, the fused result is tagged "hybrid"
— the claim says a bookmark absent from the semantic candidate set is tagged
"keyword". -/
theorem C5_counterexample_keyword_only_hybrid :
    ((HybridSearchRanking [] [] [dupKeywordRowTitle, dupKeywordRowContent]).map
      fun r => r.searchType) = ["hybrid".toList] :=
  of_decide_eq_true (by with_unfolding_all rfl)

/-- Singleton candidate rows for the C5 witness. -/
def semWitnessRow : SearchResult :=
  ⟨"s1".toList, [], [], [], false, [], 1 / 2, "semantic".toList, []⟩

def kwWitnessRow : SearchResult :=
  ⟨"k1".toList, [], [], [], false, [], 1, "keyword".toList, []⟩

theorem C5_hybrid_fusion_witness :
    (HybridSearchRanking [] [semWitnessRow] [kwWitnessRow]).length ≤ 20 :=
  (C5_hybrid_fusion [] [semWitnessRow] [kwWitnessRow]
    (by simp [idsOf]) (by simp [idsOf])).1

/-! ## Persistent store

The libSQL tables are lists of row structures; AUTOINCREMENT keys are explicit
counters.  Each store method is a state transformer returning the post-call
state and, for fallible methods, an optional error; an error means the
transaction rolled back, so the returned state is the input state.  Timestamps
are not modelled.  SQLite compares an INTEGER parameter against a TEXT column
by converting the integer to its decimal text. -/

/-- A `bookmarks` row: `rowid` is SQLite's implicit rowid, `id` the TEXT
primary key. -/
structure BookmarkRow where
  rowid : Nat
  id : Str
  url : Str
  title : Str
  description : Str
  status : Str
  folderPath : Str
  faviconURL : Str
deriving DecidableEq

/-- A `content` row. -/
structure ContentRow where
  id : Nat
  bookmarkId : Str
  rawContent : Str
  cleanText : Str
deriving DecidableEq

/-- An `embeddings` row. -/
structure EmbeddingRow where
  id : Nat
  contentId : Nat
  chunkIndex : Nat
  chunkText : Str
  embedding : List ℚ
deriving DecidableEq

/-- A `bookmarks_fts` row (title/description lexical index), keyed by rowid. -/
structure BookmarksFtsRow where
  rowid : Nat
  title : Str
  description : Str
deriving DecidableEq

/-- A `content_fts` row (cleaned-content-text lexical index), keyed by rowid. -/
structure ContentFtsRow where
  rowid : Nat
  cleanText : Str
deriving DecidableEq

/-- The database state. -/
structure DBState where
  bookmarks : List BookmarkRow
  content : List ContentRow
  embeddings : List EmbeddingRow
  bookmarksFts : List BookmarksFtsRow
  contentFts : List ContentFtsRow
  nextBookmarkRowid : Nat
  nextContentId : Nat
  nextEmbeddingId : Nat
deriving DecidableEq

/-- Decimal text of an integer key, as SQLite produces when comparing an
INTEGER parameter with a TEXT column. -/
def natToStr (n : Nat) : Str := (toString n).toList

/-- `Storage.DeleteBookmark` (batch.go): in one transaction delete the
`bookmarks_fts` row at rowid equal to the integer key, the embedding rows of
the bookmark's content rows, the content rows, and the bookmark row; error
(and rollback) when no bookmark row matched.  `content_fts` is not touched. -/
def DeleteBookmark (s : DBState) (bookmarkID : Nat) : DBState × Option Str :=
  let key := natToStr bookmarkID
  let fts' := s.bookmarksFts.filter fun r => !(r.rowid == bookmarkID)
  let contentIds := (s.content.filter fun c => c.bookmarkId == key).map fun c => c.id
  let embeddings' := s.embeddings.filter fun e => !(contentIds.contains e.contentId)
  let content' := s.content.filter fun c => !(c.bookmarkId == key)
  let rowsAffected := (s.bookmarks.filter fun b => b.id == key).length
  let bookmarks' := s.bookmarks.filter fun b => !(b.id == key)
  if rowsAffected == 0 then (s, some "bookmark not found".toList)
  else ({s with bookmarksFts := fts', embeddings := embeddings',
                content := content', bookmarks := bookmarks'}, none)

/-- A bookmark produced by the import parser (`parsers.Bookmark`, the fields
the import path reads). -/
structure ParsedBookmark where
  url : Str
  title : Str
  folderPath : List Str
  icon : Str

/-- `ImportResult` counts. -/
structure ImportCounts where
  imported : Nat
  duplicates : Nat
  failed : Nat
deriving DecidableEq

/-- The bookmark loop of `Storage.ImportBookmarks`: per bookmark, check the
URL for a duplicate, then insert the row with a fresh UUID (`freshId i` models
`uuid.New()` for the i-th bookmark) and an empty description.  No lexical
index row is written.  Folder bookkeeping is omitted (out of the claims'
scope); failure paths other than the duplicate check do not arise in the
model. -/
def importLoop (freshId : Nat → Str) :
    List ParsedBookmark → Nat → DBState → ImportCounts → DBState × ImportCounts
  | [], _, s, c => (s, c)
  | p :: ps, i, s, c =>
    if s.bookmarks.any fun b => b.url == p.url then
      importLoop freshId ps (i + 1) s {c with duplicates := c.duplicates + 1}
    else
      let row : BookmarkRow :=
        { rowid := s.nextBookmarkRowid, id := freshId i, url := p.url,
          title := p.title, description := [], status := "pending".toList,
          folderPath := joinSep ['/'] p.folderPath, faviconURL := p.icon }
      importLoop freshId ps (i + 1)
        {s with bookmarks := s.bookmarks ++ [row],
                nextBookmarkRowid := s.nextBookmarkRowid + 1}
        {c with imported := c.imported + 1}

/-- `Storage.ImportBookmarks`, restricted to its bookmark-insertion loop. -/
def ImportBookmarks (s : DBState) (parsed : List ParsedBookmark)
    (freshId : Nat → Str) : DBState × ImportCounts :=
  importLoop freshId parsed 0 s ⟨0, 0, 0⟩

/-- The `*Bookmark` argument fields `Storage.UpdateBookmark` writes. -/
structure BookmarkUpdate where
  id : Str
  title : Str
  description : Str
  faviconURL : Str
deriving DecidableEq

/-- `Storage.UpdateBookmark`: update title/description/favicon by id (error
and rollback when no row matches), then `INSERT OR REPLACE` the
`bookmarks_fts` mirror row at the bookmark's rowid, all in one transaction. -/
def UpdateBookmark (s : DBState) (b : BookmarkUpdate) : DBState × Option Str :=
  let rowsAffected := (s.bookmarks.filter fun row => row.id == b.id).length
  if rowsAffected == 0 then (s, some "bookmark not found".toList)
  else
    match s.bookmarks.find? fun row => row.id == b.id with
    | none => (s, some "failed to get bookmark rowid".toList)
    | some row =>
      let bookmarks := s.bookmarks.map fun r =>
        if r.id == b.id then
          {r with title := b.title, description := b.description,
                  faviconURL := b.faviconURL}
        else r
      let newFts : BookmarksFtsRow := ⟨row.rowid, b.title, b.description⟩
      let fts :=
        if s.bookmarksFts.any fun f => f.rowid == row.rowid then
          s.bookmarksFts.map fun f => if f.rowid == row.rowid then newFts else f
        else s.bookmarksFts ++ [newFts]
      ({s with bookmarks := bookmarks, bookmarksFts := fts}, none)

/-- `Storage.UpdateBookmarkStatus`: set the status by id; error when no row
matches. -/
def UpdateBookmarkStatus (s : DBState) (bookmarkID status : Str) :
    DBState × Option Str :=
  if s.bookmarks.any fun b => b.id == bookmarkID then
    ({s with bookmarks := s.bookmarks.map fun b =>
        if b.id == bookmarkID then {b with status := status} else b}, none)
  else (s, some "bookmark not found".toList)

/-- `Storage.StoreContent`: in one transaction delete the bookmark's content
rows, insert the new row under a fresh id, and insert a `content_fts` row for
the new id.  The old content rows' `content_fts` entries are not deleted. -/
def StoreContent (s : DBState) (bookmarkID rawContent cleanText : Str) : DBState :=
  let remaining := s.content.filter fun c => !(c.bookmarkId == bookmarkID)
  let newId := s.nextContentId
  {s with content := remaining ++ [⟨newId, bookmarkID, rawContent, cleanText⟩],
          contentFts := s.contentFts ++ [⟨newId, cleanText⟩],
          nextContentId := newId + 1}

/-- `Storage.StoreMultipleChunkEmbeddings`: reject mismatched lengths before
the transaction; otherwise, in one transaction, delete the content id's chunk
rows and insert the new set with chunk indexes 0..n-1. -/
def StoreMultipleChunkEmbeddings (s : DBState) (contentID : Nat)
    (embeddings : List (List ℚ)) (chunks : List Str) : DBState × Option Str :=
  if embeddings.length ≠ chunks.length then
    (s, some "embeddings count does not match chunks count".toList)
  else
    let cleared := s.embeddings.filter fun e => !(e.contentId == contentID)
    let rows := ((embeddings.zip chunks).enum).map fun ic =>
      (⟨s.nextEmbeddingId + ic.1, contentID, ic.1, ic.2.2, ic.2.1⟩ : EmbeddingRow)
    ({s with embeddings := cleared ++ rows,
             nextEmbeddingId := s.nextEmbeddingId + (embeddings.zip chunks).length},
     none)

/-! ## Services: content processor and bulk scraper

External collaborators (the HTTP scraper and the embedding provider) are
modelled as outcome parameters: `Except` values standing for the call's
result.  Goroutines, channels and mutexes are outside the shallow embedding;
the bulk worker's per-item body is modelled as a pure transformer of the store
and the job state, which is what the claims quantify over. -/

/-- `services.ScrapedContent`, the fields the core reads. -/
structure ScrapedContent where
  title : Str
  description : Str
  faviconURL : Str
  content : Str
  cleanText : Str
  success : Bool
  errorMsg : Str
deriving DecidableEq

/-- `EmbeddingService.GenerateEmbeddingWithChunking`: chunk at budget 6000
(error when no chunks), then ask the provider for the batch; the batch call
rejects a response whose length differs from the number of chunks. -/
def GenerateEmbeddingWithChunking (text : Str)
    (provider : Except Str (List (List ℚ))) :
    Except Str (List (List ℚ) × List Str) :=
  let chunks := ChunkText text 6000
  if chunks.isEmpty then .error "no chunks generated from text".toList
  else
    match provider with
    | .error e => .error e
    | .ok vecs =>
      if vecs.length ≠ chunks.length then .error "embedding count mismatch".toList
      else .ok (vecs, chunks)

/-- `ContentProcessor.ProcessBookmarkContent`: load the bookmark; scrape (a
scrape error sets the bookmark's status to failed and aborts); store the
content; reload it; chunk and embed (a provider error aborts with no status
change and no chunk-row change); store the chunk set; set the status to
completed. -/
def ProcessBookmarkContent (s : DBState) (bookmarkID : Str)
    (scrape : Except Str ScrapedContent)
    (provider : Except Str (List (List ℚ))) : DBState × Option Str :=
  match s.bookmarks.find? fun b => b.id == bookmarkID with
  | none => (s, some "failed to get bookmark".toList)
  | some _ =>
    match scrape with
    | .error e => ((UpdateBookmarkStatus s bookmarkID "failed".toList).1, some e)
    | .ok scraped =>
      let s1 := StoreContent s bookmarkID scraped.content scraped.cleanText
      match s1.content.find? fun c => c.bookmarkId == bookmarkID with
      | none => (s1, some "failed to get stored content".toList)
      | some content =>
        match GenerateEmbeddingWithChunking content.cleanText provider with
        | .error e => (s1, some e)
        | .ok vc =>
          match StoreMultipleChunkEmbeddings s1 content.id vc.1 vc.2 with
          | (s2, some e) => (s2, some e)
          | (s2, none) =>
            match UpdateBookmarkStatus s2 bookmarkID "completed".toList with
            | (s3, e) => (s3, e)

/-- `services.ScrapingStatus`. -/
inductive ScrapingStatus
  | idle
  | running
  | paused
  | completed
  | stopped
deriving DecidableEq

/-- `services.BookmarkScrapingStatus`. -/
inductive BookmarkItemStatus
  | notScraped
  | inProgress
  | scraped
  | errorStatus
deriving DecidableEq

/-- `services.BookmarkScrapingProgress`. -/
structure BookmarkScrapingProgress where
  status : BookmarkItemStatus
  errorMsg : Str
deriving DecidableEq

/-- The mutable fields of `services.BulkScraper` (channels and the mutex are
concurrency plumbing outside the model; the per-bookmark map is an
insertion-ordered association list). -/
structure BulkScraperState where
  status : ScrapingStatus
  bookmarkIDs : List Str
  current : Nat
  total : Nat
  currentURL : Str
  bookmarkStatuses : List (Str × BookmarkScrapingProgress)
deriving DecidableEq

/-- Map assignment `bs.bookmarkStatuses[id] = p`. -/
def setItemStatus (m : List (Str × BookmarkScrapingProgress)) (id : Str)
    (p : BookmarkScrapingProgress) : List (Str × BookmarkScrapingProgress) :=
  if m.any fun e => e.1 == id then
    m.map fun e => if e.1 == id then (id, p) else e
  else m ++ [(id, p)]

/-- `BulkScraper.Start`: reject when a job is running or paused; otherwise
install the fresh job (ids, counters, all items not-scraped) with status
running.  The background worker launch is outside the model. -/
def BulkStart (bs : BulkScraperState) (bookmarkIDs : List Str) :
    BulkScraperState × Option Str :=
  if bs.status = .running ∨ bs.status = .paused then
    (bs, some "scraping already in progress".toList)
  else
    ({bs with status := .running, bookmarkIDs := bookmarkIDs, current := 0,
              total := bookmarkIDs.length,
              bookmarkStatuses := bookmarkIDs.foldl
                (fun m id => setItemStatus m id ⟨.notScraped, []⟩) []},
     none)

/-- `BulkScraper.Pause`: reject unless running. -/
def BulkPause (bs : BulkScraperState) : BulkScraperState × Option Str :=
  if bs.status ≠ .running then (bs, some "no running scraping process to pause".toList)
  else ({bs with status := .paused}, none)

/-- `BulkScraper.Resume`: reject unless paused. -/
def BulkResume (bs : BulkScraperState) : BulkScraperState × Option Str :=
  if bs.status ≠ .paused then (bs, some "no paused scraping process to resume".toList)
  else ({bs with status := .running}, none)

/-- `BulkScraper.Stop`: reject unless running or paused. -/
def BulkStop (bs : BulkScraperState) : BulkScraperState × Option Str :=
  if bs.status ≠ .running ∧ bs.status ≠ .paused then
    (bs, some "no scraping process to stop".toList)
  else ({bs with status := .stopped}, none)

/-- One iteration of `BulkScraper.scrapeAll`'s loop body (after the stop and
pause checks), for item `i` carrying `bookmarkID`, with the scraper call's
outcome supplied: bump the counter, load the bookmark, mark in-progress,
scrape; on success write the scraped metadata through `UpdateBookmark`, store
the content (a content-store error is only logged), and mark the item
scraped; on any failure record the error against the item and leave the store
as is.  No chunking or embedding is invoked, and the bookmark row's status is
never written. -/
def scrapeOneBookmark (store : DBState) (bs : BulkScraperState) (i : Nat)
    (bookmarkID : Str) (outcome : Except Str ScrapedContent) :
    DBState × BulkScraperState :=
  let bs1 := {bs with current := i + 1}
  match store.bookmarks.find? fun b => b.id == bookmarkID with
  | none =>
    (store, {bs1 with bookmarkStatuses := (setItemStatus bs1.bookmarkStatuses
      bookmarkID ⟨.errorStatus, "Failed to get bookmark".toList⟩)})
  | some bookmark =>
    let bs2 := {bs1 with currentURL := bookmark.url}
    let bs3 := {bs2 with bookmarkStatuses := (setItemStatus bs2.bookmarkStatuses
      bookmarkID ⟨.inProgress, []⟩)}
    match outcome with
    | .error e =>
      (store, {bs3 with bookmarkStatuses := (setItemStatus bs3.bookmarkStatuses
        bookmarkID ⟨.errorStatus, if e.isEmpty then "Failed to scrape content".toList
          else e⟩)})
    | .ok scraped =>
      if !scraped.success then
        (store, {bs3 with bookmarkStatuses := (setItemStatus bs3.bookmarkStatuses
          bookmarkID ⟨.errorStatus, if scraped.errorMsg.isEmpty then
            "Failed to scrape content".toList else scraped.errorMsg⟩)})
      else
        let upd : BookmarkUpdate :=
          ⟨bookmark.id, scraped.title, scraped.description, scraped.faviconURL⟩
        match UpdateBookmark store upd with
        | (store', some _) =>
          (store', {bs3 with bookmarkStatuses := (setItemStatus bs3.bookmarkStatuses
            bookmarkID ⟨.errorStatus, "Failed to update bookmark".toList⟩)})
        | (store', none) =>
          let store'' := StoreContent store' bookmark.id scraped.content scraped.cleanText
          (store'', {bs3 with bookmarkStatuses := (setItemStatus bs3.bookmarkStatuses
            bookmarkID ⟨.scraped, []⟩)})

theorem find?_append_of_none {α : Type} (p : α → Bool) (l₁ l₂ : List α)
    (h : l₁.find? p = none) : (l₁ ++ l₂).find? p = l₂.find? p := by
  induction l₁ with
  | nil => rfl
  | cons x xs ih =>
    cases hx : p x with
    | true => simp [List.find?, hx] at h
    | false =>
      simp only [List.find?, hx] at h
      simp only [List.cons_append, List.find?, hx]
      exact ih h

/-- C9: each control call errs exactly in the disallowed states — Start iff
running or paused, Pause iff not running, Resume iff not paused, Stop iff
neither running nor paused — and an erring call returns the job state
unchanged. -/
theorem C9_job_control_errors (bs : BulkScraperState) (ids : List Str) :
    ((BulkStart bs ids).2.isSome ↔ (bs.status = .running ∨ bs.status = .paused)) ∧
    ((BulkStart bs ids).2.isSome → (BulkStart bs ids).1 = bs) ∧
    ((BulkPause bs).2.isSome ↔ bs.status ≠ .running) ∧
    ((BulkPause bs).2.isSome → (BulkPause bs).1 = bs) ∧
    ((BulkResume bs).2.isSome ↔ bs.status ≠ .paused) ∧
    ((BulkResume bs).2.isSome → (BulkResume bs).1 = bs) ∧
    ((BulkStop bs).2.isSome ↔ (bs.status ≠ .running ∧ bs.status ≠ .paused)) ∧
    ((BulkStop bs).2.isSome → (BulkStop bs).1 = bs) := by
  obtain ⟨st, jids, cur, tot, url, m⟩ := bs
  cases st <;> simp [BulkStart, BulkPause, BulkResume, BulkStop]

/-- The empty database. -/
def emptyDB : DBState := ⟨[], [], [], [], [], 1, 1, 1⟩

/-- C10: a call to `StoreMultipleChunkEmbeddings` whose embedding and chunk
lists differ in length returns an error before the transaction begins, so the
stored chunk set for the content id — and the whole store — is unchanged. -/
theorem C10_chunk_count_mismatch (s : DBState) (contentID : Nat)
    (embeddings : List (List ℚ)) (chunks : List Str)
    (h : embeddings.length ≠ chunks.length) :
    (StoreMultipleChunkEmbeddings s contentID embeddings chunks).2.isSome ∧
    (StoreMultipleChunkEmbeddings s contentID embeddings chunks).1 = s := by
  unfold StoreMultipleChunkEmbeddings
  rw [if_pos h]
  exact ⟨rfl, rfl⟩

theorem C10_chunk_count_mismatch_witness :
    (StoreMultipleChunkEmbeddings emptyDB 1 [[1]] []).2.isSome ∧
    (StoreMultipleChunkEmbeddings emptyDB 1 [[1]] []).1 = emptyDB :=
  C10_chunk_count_mismatch emptyDB 1 [[1]] [] (by decide)

/-- C1 (amended): for every state and integer key matching a stored bookmark
id, `DeleteBookmark` succeeds and, in one transition, removes every content
row of that bookmark, every embedding row referencing those content rows, and
the title/description-index row whose rowid equals the integer key; the
cleaned-content-text index (`content_fts`) is left completely unchanged, so
its rows for the deleted content remain. -/
theorem C1_delete_bookmark (s : DBState) (n : Nat)
    (h : ∃ b ∈ s.bookmarks, b.id = natToStr n) :
    (DeleteBookmark s n).2 = none ∧
    (∀ c ∈ (DeleteBookmark s n).1.content, c.bookmarkId ≠ natToStr n) ∧
    (∀ e ∈ (DeleteBookmark s n).1.embeddings, ∀ c ∈ s.content,
      c.bookmarkId = natToStr n → e.contentId ≠ c.id) ∧
    (∀ b ∈ (DeleteBookmark s n).1.bookmarks, b.id ≠ natToStr n) ∧
    (∀ f ∈ (DeleteBookmark s n).1.bookmarksFts, f.rowid ≠ n) ∧
    (DeleteBookmark s n).1.contentFts = s.contentFts := by
  obtain ⟨b0, hmem, hid⟩ := h
  have hfil : b0 ∈ s.bookmarks.filter fun b => b.id == natToStr n := by
    refine List.mem_filter.mpr ⟨hmem, ?_⟩
    simpa using hid
  have hlen : ((s.bookmarks.filter fun b => b.id == natToStr n).length == 0) = false := by
    cases hfl : s.bookmarks.filter fun b => b.id == natToStr n with
    | nil => rw [hfl] at hfil; cases hfil
    | cons x xs => simp [hfl]
  unfold DeleteBookmark
  simp only [hlen, Bool.false_eq_true, if_false]
  refine ⟨by simp, ?_, ?_, ?_, ?_, by simp⟩
  · intro c hc
    have := (List.mem_filter.mp hc).2
    simpa using this
  · intro e he c hc hcb
    have hnotin := (List.mem_filter.mp he).2
    intro hcontra
    have hin : e.contentId ∈ (s.content.filter fun c => c.bookmarkId == natToStr n).map
        fun c => c.id :=
      List.mem_map.mpr ⟨c, List.mem_filter.mpr ⟨hc, by simpa using hcb⟩, hcontra.symm⟩
    have helem : (((s.content.filter fun c => c.bookmarkId == natToStr n).map
        fun c => c.id).contains e.contentId) = true := by
      simpa using hin
    rw [helem] at hnotin
    simp at hnotin
  · intro b hb
    have := (List.mem_filter.mp hb).2
    simpa using this
  · intro f hf
    have := (List.mem_filter.mp hf).2
    simpa using this

/-- A store holding one bookmark (rowid 1, id "1") with one content row, one
embedding chunk and both lexical-index rows. -/
def c1Bookmark : BookmarkRow :=
  ⟨1, "1".toList, "u".toList, "t".toList, "d".toList, "pending".toList, [], []⟩

def c1State : DBState :=
  ⟨[c1Bookmark], [⟨1, "1".toList, "raw".toList, "clean".toList⟩],
   [⟨1, 1, 0, "clean".toList, []⟩], [⟨1, "t".toList, "d".toList⟩],
   [⟨1, "clean".toList⟩], 2, 2, 2⟩

/-- C1 counterexample: deleting the bookmark succeeds, removes its content and
chunk rows, but the `content_fts` row for the deleted content row survives —
the cleaned-content-text lexical index still references the deleted content,
contradicting the claim's "no lexical-index row in either index". -/
theorem C1_counterexample_content_fts_orphan :
    (DeleteBookmark c1State 1).2 = none ∧
    (DeleteBookmark c1State 1).1.content = [] ∧
    (DeleteBookmark c1State 1).1.embeddings = [] ∧
    (DeleteBookmark c1State 1).1.contentFts = [⟨1, "clean".toList⟩] := by
  refine ⟨?_, ?_, ?_, ?_⟩ <;> decide

/-- A second store for the C1 witness (bookmark id "2" at rowid 2). -/
def c1wState : DBState :=
  ⟨[⟨2, "2".toList, "w".toList, "wt".toList, [], "pending".toList, [], []⟩],
   [⟨5, "2".toList, "r".toList, "c".toList⟩], [⟨3, 5, 0, "c".toList, []⟩],
   [⟨2, "wt".toList, []⟩], [⟨5, "c".toList⟩], 3, 6, 4⟩

theorem C1_delete_bookmark_witness :
    (DeleteBookmark c1wState 2).2 = none ∧
    (DeleteBookmark c1wState 2).1.contentFts = c1wState.contentFts := by
  have h := C1_delete_bookmark c1wState 2
    ⟨⟨2, "2".toList, "w".toList, "wt".toList, [], "pending".toList, [], []⟩,
      by decide, by decide⟩
  exact ⟨h.1, h.2.2.2.2.2⟩

theorem ftsFind_replace_eq (l : List BookmarksFtsRow) (x : BookmarksFtsRow)
    (h : (l.any fun f => f.rowid == x.rowid) = true) :
    (l.map fun f => if f.rowid == x.rowid then x else f).find?
      (fun f => f.rowid == x.rowid) = some x := by
  induction l with
  | nil => simp at h
  | cons f fs ih =>
    by_cases hf : (f.rowid == x.rowid) = true
    · simp [List.find?, hf]
    · have h' : (fs.any fun f => f.rowid == x.rowid) = true := by
        simpa [List.any, hf] using h
      have hmap : ((f :: fs).map fun f => if f.rowid == x.rowid then x else f)
          = f :: fs.map fun f => if f.rowid == x.rowid then x else f := by
        simp only [List.map]
        rw [if_neg hf]
      rw [hmap]
      simp only [List.find?, hf]
      exact ih h'

theorem ftsFind_append_fresh (l : List BookmarksFtsRow) (x : BookmarksFtsRow)
    (h : (l.any fun f => f.rowid == x.rowid) = false) :
    (l ++ [x]).find? (fun f => f.rowid == x.rowid) = some x := by
  have hnone : l.find? (fun f => f.rowid == x.rowid) = none := by
    rw [List.find?_eq_none]
    intro f hf hcontra
    have : (l.any fun f => f.rowid == x.rowid) = true :=
      List.any_eq_true.mpr ⟨f, hf, hcontra⟩
    rw [this] at h; cases h
  rw [find?_append_of_none _ _ _ hnone]
  simp [List.find?]

theorem importLoop_bookmarksFts (freshId : Nat → Str) :
    ∀ (ps : List ParsedBookmark) (i : Nat) (s : DBState) (c : ImportCounts),
      (importLoop freshId ps i s c).1.bookmarksFts = s.bookmarksFts := by
  intro ps
  induction ps with
  | nil => intro i s c; rfl
  | cons p rest ih =>
    intro i s c
    unfold importLoop
    by_cases hd : (s.bookmarks.any fun b => b.url == p.url) = true
    · rw [if_pos hd]; exact ih (i + 1) s _
    · rw [if_neg hd]; exact ih (i + 1) _ _

/-- C2 (amended): `UpdateBookmark` writes the `bookmarks_fts` mirror row (at
the bookmark's rowid, with the new title and description) in the same
transaction, and `StoreContent` writes the `content_fts` row for the new
content id in the same transaction; but the import path's bookmark insertion
writes no `bookmarks_fts` entry at all, and `StoreContent` only appends — the
previous content row's `content_fts` entry is left behind — so after an
import, and after a re-scrape of existing content, the lexical indexes are
not in sync with the bookmarks and content tables. -/
theorem C2_lexical_mirror (s : DBState) (b : BookmarkUpdate)
    (bookmarkID rawContent cleanText : Str) (parsed : List ParsedBookmark)
    (freshId : Nat → Str)
    (hupd : (UpdateBookmark s b).2 = none) :
    (∃ row, s.bookmarks.find? (fun r => r.id == b.id) = some row ∧
      (UpdateBookmark s b).1.bookmarksFts.find? (fun f => f.rowid == row.rowid)
        = some ⟨row.rowid, b.title, b.description⟩) ∧
    (StoreContent s bookmarkID rawContent cleanText).contentFts
      = s.contentFts ++ [⟨s.nextContentId, cleanText⟩] ∧
    (StoreContent s bookmarkID rawContent cleanText).content
      = (s.content.filter fun c => !(c.bookmarkId == bookmarkID))
        ++ [⟨s.nextContentId, bookmarkID, rawContent, cleanText⟩] ∧
    (ImportBookmarks s parsed freshId).1.bookmarksFts = s.bookmarksFts := by
  refine ⟨?_, rfl, rfl, importLoop_bookmarksFts freshId parsed 0 s ⟨0, 0, 0⟩⟩
  unfold UpdateBookmark at hupd ⊢
  by_cases hlen : (((s.bookmarks.filter fun row => row.id == b.id).length) == 0) = true
  · rw [if_pos hlen] at hupd; cases hupd
  · rw [if_neg hlen] at hupd ⊢
    cases hfind : s.bookmarks.find? fun row => row.id == b.id with
    | none => rw [hfind] at hupd; cases hupd
    | some row =>
      dsimp only at hupd ⊢
      refine ⟨row, rfl, ?_⟩
      by_cases hany : (s.bookmarksFts.any fun f => f.rowid == row.rowid) = true
      · simp only [hany, if_true]
        exact ftsFind_replace_eq s.bookmarksFts ⟨row.rowid, b.title, b.description⟩ hany
      · simp only [hany, Bool.false_eq_true, if_false]
        exact ftsFind_append_fresh s.bookmarksFts ⟨row.rowid, b.title, b.description⟩
          (by simpa using hany)

/-- C2 counterexample: importing one bookmark into the empty store inserts the
bookmark row (a title mutation) but writes no `bookmarks_fts` mirror row, so
the title/description lexical index is out of sync immediately after the
transaction. -/
theorem C2_counterexample_import_without_mirror :
    (ImportBookmarks emptyDB [⟨"u".toList, "t".toList, [], []⟩] natToStr).1.bookmarks.length
      = 1 ∧
    (ImportBookmarks emptyDB [⟨"u".toList, "t".toList, [], []⟩] natToStr).1.bookmarksFts
      = [] := by
  constructor
  · decide
  · decide

/-- Store and update for the C2 witness. -/
def c2wState : DBState :=
  ⟨[⟨4, "x1".toList, "wu".toList, "old".toList, [], "pending".toList, [], []⟩],
   [], [], [], [], 5, 1, 1⟩

def c2wUpdate : BookmarkUpdate := ⟨"x1".toList, "new".toList, "nd".toList, []⟩

theorem C2_lexical_mirror_witness :
    (∃ row, c2wState.bookmarks.find? (fun r => r.id == c2wUpdate.id) = some row ∧
      (UpdateBookmark c2wState c2wUpdate).1.bookmarksFts.find?
        (fun f => f.rowid == row.rowid)
        = some ⟨row.rowid, c2wUpdate.title, c2wUpdate.description⟩) :=
  (C2_lexical_mirror c2wState c2wUpdate [] [] [] [] natToStr (by decide)).1

theorem StoreContent_find (s : DBState) (bookmarkID rawContent cleanText : Str) :
    (StoreContent s bookmarkID rawContent cleanText).content.find?
      (fun c => c.bookmarkId == bookmarkID)
      = some ⟨s.nextContentId, bookmarkID, rawContent, cleanText⟩ := by
  unfold StoreContent
  dsimp only
  have hnone : (s.content.filter fun c => !(c.bookmarkId == bookmarkID)).find?
      (fun c => c.bookmarkId == bookmarkID) = none := by
    rw [List.find?_eq_none]
    intro c hc hcontra
    have := (List.mem_filter.mp hc).2
    rw [hcontra] at this
    cases this
  rw [find?_append_of_none _ _ _ hnone]
  simp [List.find?]

/-- C8 (amended): when the embedding provider fails for a bookmark whose
scrape step succeeded, `ProcessBookmarkContent` returns the provider's error,
no chunk row is inserted or deleted (the chunk table is exactly as before),
and the bookmark's status is left unchanged — it is not set to failed; only a
failure of the scrape step sets the status to failed. -/
theorem C8_provider_failure (s : DBState) (bookmarkID : Str)
    (scraped : ScrapedContent) (e : Str)
    (hb : (s.bookmarks.find? fun b => b.id == bookmarkID).isSome)
    (hch : (ChunkText scraped.cleanText 6000).isEmpty = false) :
    (ProcessBookmarkContent s bookmarkID (.ok scraped) (.error e)).2 = some e ∧
    (ProcessBookmarkContent s bookmarkID (.ok scraped) (.error e)).1.embeddings
      = s.embeddings ∧
    ((ProcessBookmarkContent s bookmarkID (.ok scraped) (.error e)).1.bookmarks.map
      fun b => b.status) = s.bookmarks.map fun b => b.status := by
  unfold ProcessBookmarkContent
  cases hfind : s.bookmarks.find? fun b => b.id == bookmarkID with
  | none => rw [hfind] at hb; cases hb
  | some bk =>
    dsimp only
    rw [StoreContent_find s bookmarkID scraped.content scraped.cleanText]
    dsimp only
    unfold GenerateEmbeddingWithChunking
    dsimp only
    rw [hch]
    simp only [Bool.false_eq_true, if_false]
    refine ⟨?_, ?_, ?_⟩ <;> trivial

/-- Store, bookmark and scraped page for the C8 scenarios. -/
def c8State : DBState :=
  ⟨[⟨1, "b1".toList, "u".toList, "t".toList, [], "pending".toList, [], []⟩],
   [], [], [], [], 2, 1, 1⟩

def c8Scraped : ScrapedContent :=
  ⟨"T".toList, [], [], "raw".toList, "hello".toList, true, []⟩

/-- C8 counterexample: on a provider failure the bookmark's status remains
"pending" — it is not set to "failed" as the claim requires (the chunk table
is indeed left unchanged). -/
theorem C8_counterexample_status_unchanged :
    ((ProcessBookmarkContent c8State "b1".toList (.ok c8Scraped)
        (.error "boom".toList)).1.bookmarks.map fun b => b.status)
      = ["pending".toList] ∧
    "pending".toList ≠ "failed".toList ∧
    (ProcessBookmarkContent c8State "b1".toList (.ok c8Scraped)
        (.error "boom".toList)).1.embeddings = [] := by
  refine ⟨?_, ?_, ?_⟩ <;> decide

/-- A second store for the C8 witness. -/
def c8wState : DBState :=
  ⟨[⟨3, "b2".toList, "v".toList, "s".toList, [], "completed".toList, [], []⟩],
   [], [⟨1, 9, 0, "old".toList, []⟩], [], [], 4, 7, 2⟩

def c8wScraped : ScrapedContent :=
  ⟨"W".toList, [], [], "rw".toList, "hi".toList, true, []⟩

theorem C8_provider_failure_witness :
    (ProcessBookmarkContent c8wState "b2".toList (.ok c8wScraped)
        (.error "x".toList)).2 = some "x".toList ∧
    (ProcessBookmarkContent c8wState "b2".toList (.ok c8wScraped)
        (.error "x".toList)).1.embeddings = c8wState.embeddings :=
  ⟨(C8_provider_failure c8wState "b2".toList c8wScraped "x".toList
      (by decide) (by decide)).1,
   (C8_provider_failure c8wState "b2".toList c8wScraped "x".toList
      (by decide) (by decide)).2.1⟩

theorem UpdateBookmark_success (s : DBState) (b : BookmarkUpdate)
    (h : (s.bookmarks.filter fun r => r.id == b.id) ≠ []) :
    (UpdateBookmark s b).2 = none ∧
    (UpdateBookmark s b).1.embeddings = s.embeddings ∧
    (UpdateBookmark s b).1.content = s.content ∧
    (UpdateBookmark s b).1.nextContentId = s.nextContentId ∧
    ((UpdateBookmark s b).1.bookmarks.map fun r => r.status)
      = s.bookmarks.map (fun r => r.status) ∧
    (∃ row ∈ (UpdateBookmark s b).1.bookmarks, row.id = b.id ∧
      row.title = b.title ∧ row.description = b.description ∧
      row.faviconURL = b.faviconURL) := by
  have hlen : (((s.bookmarks.filter fun r => r.id == b.id).length) == 0) = false := by
    cases hfl : s.bookmarks.filter fun r => r.id == b.id with
    | nil => exact absurd hfl h
    | cons x xs => simp [hfl]
  have hsome : ∃ row, (s.bookmarks.find? fun r => r.id == b.id) = some row := by
    cases hfl : s.bookmarks.filter fun r => r.id == b.id with
    | nil => exact absurd hfl h
    | cons x xs =>
      have hx : x ∈ s.bookmarks.filter fun r => r.id == b.id := by rw [hfl]; simp
      have hx1 := (List.mem_filter.mp hx).1
      have hx2 := (List.mem_filter.mp hx).2
      cases hfd : s.bookmarks.find? fun r => r.id == b.id with
      | none =>
        rw [List.find?_eq_none] at hfd
        exact absurd hx2 (by simpa using hfd x hx1)
      | some row => exact ⟨row, rfl⟩
  obtain ⟨row, hrow⟩ := hsome
  have hrowmem : row ∈ s.bookmarks := List.mem_of_find?_eq_some hrow
  have hrowid : (row.id == b.id) = true := by
    have := List.find?_some hrow
    simpa using this
  unfold UpdateBookmark
  dsimp only
  rw [hlen]
  simp only [Bool.false_eq_true, if_false, hrow]
  refine ⟨by trivial, by trivial, by trivial, by trivial, ?_, ?_⟩
  · rw [List.map_map]
    refine List.map_congr_left ?_
    intro r _
    show (if (r.id == b.id) = true then _ else r).status = r.status
    by_cases hr : (r.id == b.id) = true
    · rw [if_pos hr]
    · rw [if_neg hr]
  · have hmemmap : (fun r => if (r.id == b.id) = true then
        ({r with title := b.title, description := b.description,
                 faviconURL := b.faviconURL} : BookmarkRow) else r) row
        ∈ s.bookmarks.map fun r => if (r.id == b.id) = true then
            ({r with title := b.title, description := b.description,
                     faviconURL := b.faviconURL} : BookmarkRow) else r :=
      List.mem_map_of_mem _ hrowmem
    dsimp only at hmemmap
    rw [if_pos hrowid] at hmemmap
    refine ⟨_, hmemmap, by simpa using hrowid, rfl, rfl, rfl⟩

theorem setItemStatus_find (m : List (Str × BookmarkScrapingProgress)) (id : Str)
    (p : BookmarkScrapingProgress) :
    (setItemStatus m id p).find? (fun e => e.1 == id) = some (id, p) := by
  unfold setItemStatus
  by_cases h : (m.any fun e => e.1 == id) = true
  · rw [if_pos h]
    induction m with
    | nil => simp at h
    | cons e es ih =>
      by_cases he : (e.1 == id) = true
      · have hmap : ((e :: es).map fun e => if e.1 == id then (id, p) else e)
            = (id, p) :: es.map fun e => if e.1 == id then (id, p) else e := by
          simp only [List.map]
          rw [if_pos he]
        rw [hmap]
        exact List.find?_cons_of_pos _ (by simp)
      · have heb : (e.1 == id) = false := by simpa using he
        have h' : (es.any fun e => e.1 == id) = true := by
          rw [List.any_cons, heb, Bool.false_or] at h
          exact h
        have hmap : ((e :: es).map fun e => if e.1 == id then (id, p) else e)
            = e :: es.map fun e => if e.1 == id then (id, p) else e := by
          simp only [List.map]
          rw [if_neg he]
        rw [hmap]
        simp only [List.find?, he]
        exact ih h'
  · rw [if_neg h]
    have hnone : m.find? (fun e => e.1 == id) = none := by
      rw [List.find?_eq_none]
      intro e he hcontra
      exact h (List.any_eq_true.mpr ⟨e, he, hcontra⟩)
    rw [find?_append_of_none _ _ _ hnone]
    exact List.find?_cons_of_pos _ (by simp)

/-- C4 (amended): for a bookmark item the bulk worker fetches successfully,
the loop body updates the bookmark's metadata (title, description, favicon)
through `UpdateBookmark`, stores the fetched content through
`Store.StoreContent`, and marks the item "scraped" in the job's progress map —
but it does not trigger the chunking-and-embedding pipeline (the chunk table
is exactly as before) and does not mark the bookmark completed (no bookmark's
status changes); embeddings are produced only by the separate
`ContentProcessor.ProcessBookmarkContent` path. -/
theorem C4_scrape_item_success (store : DBState) (bs : BulkScraperState)
    (i : Nat) (bookmarkID : Str) (scraped : ScrapedContent) (bookmark : BookmarkRow)
    (hfind : store.bookmarks.find? (fun b => b.id == bookmarkID) = some bookmark)
    (hsucc : scraped.success = true) :
    (scrapeOneBookmark store bs i bookmarkID (.ok scraped)).1.embeddings
      = store.embeddings ∧
    ((scrapeOneBookmark store bs i bookmarkID (.ok scraped)).1.bookmarks.map
      fun b => b.status) = store.bookmarks.map (fun b => b.status) ∧
    ((scrapeOneBookmark store bs i bookmarkID (.ok scraped)).1.content.find?
      fun c => c.bookmarkId == bookmark.id)
      = some ⟨store.nextContentId, bookmark.id, scraped.content, scraped.cleanText⟩ ∧
    (∃ row ∈ (scrapeOneBookmark store bs i bookmarkID (.ok scraped)).1.bookmarks,
      row.id = bookmark.id ∧ row.title = scraped.title ∧
      row.description = scraped.description ∧ row.faviconURL = scraped.faviconURL) ∧
    ((scrapeOneBookmark store bs i bookmarkID (.ok scraped)).2.bookmarkStatuses.find?
      fun e => e.1 == bookmarkID) = some (bookmarkID, ⟨.scraped, []⟩) ∧
    (scrapeOneBookmark store bs i bookmarkID (.ok scraped)).2.current = i + 1 := by
  have hmem : bookmark ∈ store.bookmarks := List.mem_of_find?_eq_some hfind
  have hfil : (store.bookmarks.filter fun r => r.id == bookmark.id) ≠ [] := by
    intro hcontra
    have : bookmark ∈ store.bookmarks.filter fun r => r.id == bookmark.id :=
      List.mem_filter.mpr ⟨hmem, by simp⟩
    rw [hcontra] at this
    cases this
  obtain ⟨hu2, hue, huc, hun, hus, hurow⟩ := UpdateBookmark_success store
    ⟨bookmark.id, scraped.title, scraped.description, scraped.faviconURL⟩ hfil
  have hu : UpdateBookmark store
      ⟨bookmark.id, scraped.title, scraped.description, scraped.faviconURL⟩
      = ((UpdateBookmark store
        ⟨bookmark.id, scraped.title, scraped.description, scraped.faviconURL⟩).1,
        none) := by
    have hp := Prod.mk.eta (p := UpdateBookmark store
      ⟨bookmark.id, scraped.title, scraped.description, scraped.faviconURL⟩)
    rw [hu2] at hp
    exact hp.symm
  unfold scrapeOneBookmark
  rw [hfind]
  dsimp only
  rw [hsucc]
  simp only [Bool.not_true, Bool.false_eq_true, if_false]
  rw [hu]
  dsimp only
  refine ⟨?_, ?_, ?_, ?_, ?_, ?_⟩
  · show (StoreContent _ _ _ _).embeddings = store.embeddings
    rw [show ∀ t : DBState, ∀ a b c : Str, (StoreContent t a b c).embeddings
      = t.embeddings from fun t a b c => rfl]
    exact hue
  · show ((StoreContent _ _ _ _).bookmarks.map fun b => b.status) = _
    rw [show ∀ t : DBState, ∀ a b c : Str, (StoreContent t a b c).bookmarks
      = t.bookmarks from fun t a b c => rfl]
    exact hus
  · rw [StoreContent_find, hun]
  · obtain ⟨row, hrmem, hrid, hrt, hrd, hrf⟩ := hurow
    exact ⟨row, hrmem, hrid, hrt, hrd, hrf⟩
  · exact setItemStatus_find _ _ _
  · rfl

/-- Store, job state and scraped page for the C4 counterexample. -/
def c4Store : DBState :=
  ⟨[⟨1, "b1".toList, "u".toList, "old".toList, [], "pending".toList, [], []⟩],
   [], [], [⟨1, "old".toList, []⟩], [], 2, 1, 1⟩

def c4Job : BulkScraperState :=
  ⟨.running, ["b1".toList], 0, 1, [], [("b1".toList, ⟨.notScraped, []⟩)]⟩

def c4Scraped : ScrapedContent :=
  ⟨"T".toList, "D".toList, "f".toList, "raw".toList, "clean".toList, true, []⟩

/-- C4 counterexample: after a successful fetch the item is marked scraped and
the content is stored, yet the chunk table stays empty (the
chunking-and-embedding pipeline was never triggered) and the bookmark's
status stays "pending" rather than "completed". -/
theorem C4_counterexample_no_pipeline :
    (scrapeOneBookmark c4Store c4Job 0 "b1".toList (.ok c4Scraped)).1.embeddings
      = [] ∧
    ((scrapeOneBookmark c4Store c4Job 0 "b1".toList
        (.ok c4Scraped)).1.bookmarks.map fun b => b.status) = ["pending".toList] ∧
    "pending".toList ≠ "completed".toList ∧
    ((scrapeOneBookmark c4Store c4Job 0 "b1".toList
        (.ok c4Scraped)).2.bookmarkStatuses.find? fun e => e.1 == "b1".toList)
      = some ("b1".toList, ⟨.scraped, []⟩) := by
  refine ⟨?_, ?_, ?_, ?_⟩ <;> decide

/-- Inputs for the C4 witness. -/
def c4wBookmark : BookmarkRow :=
  ⟨7, "b9".toList, "v".toList, "told".toList, [], "pending".toList, [], []⟩

def c4wStore : DBState := ⟨[c4wBookmark], [], [], [], [], 8, 3, 1⟩

def c4wJob : BulkScraperState :=
  ⟨.running, ["b9".toList], 0, 1, [], [("b9".toList, ⟨.notScraped, []⟩)]⟩

def c4wScraped : ScrapedContent :=
  ⟨"NT".toList, "ND".toList, "nf".toList, "nraw".toList, "nclean".toList, true, []⟩

theorem C4_scrape_item_success_witness :
    (scrapeOneBookmark c4wStore c4wJob 0 "b9".toList (.ok c4wScraped)).1.embeddings
      = c4wStore.embeddings ∧
    ((scrapeOneBookmark c4wStore c4wJob 0 "b9".toList
        (.ok c4wScraped)).2.bookmarkStatuses.find? fun e => e.1 == "b9".toList)
      = some ("b9".toList, ⟨.scraped, []⟩) :=
  ⟨(C4_scrape_item_success c4wStore c4wJob 0 "b9".toList c4wScraped c4wBookmark
      (by decide) rfl).1,
   (C4_scrape_item_success c4wStore c4wJob 0 "b9".toList c4wScraped c4wBookmark
      (by decide) rfl).2.2.2.2.1⟩
